import Mathlib

/-!
Verification of the hybrid retrieval engine and orphan-recovery pipeline of a
comment-analysis system.  The Python source is shallowly embedded: machine
floats are idealised as rationals, `math.sqrt` is abstracted as an explicit
function parameter (written `sq` below), Python exceptions become `Except`,
and the external embedding / completion services become explicit oracle
parameters.  Python's stable `list.sort(key=..., reverse=True)` is embedded
as a stable insertion sort (`sortDescBy`), which has the same input/output
behaviour as any stable descending sort by key.
-/

/-- Effectful map over a list in the `Except` monad, written as structural
recursion (the shape of a Python `for` loop building a list, where a raised
exception aborts the loop). -/
def exceptMapM (f : α → Except ε β) : List α → Except ε (List β)
  | [] => .ok []
  | x :: xs =>
    match f x with
    | .ok y =>
      match exceptMapM f xs with
      | .ok ys => .ok (y :: ys)
      | .error e => .error e
    | .error e => .error e

/-- Effectful left fold in the `Except` monad, written as structural
recursion (the shape of a Python `for` loop threading an accumulator, where
a raised exception aborts the loop). -/
def exceptFoldlM (f : σ → α → Except ε σ) : σ → List α → Except ε σ
  | acc, [] => .ok acc
  | acc, x :: xs =>
    match f acc x with
    | .ok acc2 => exceptFoldlM f acc2 xs
    | .error e => .error e

/-- Truncating slice, embedding Python's `l[:k]` for an arbitrary integer `k`:
a non-negative bound takes a prefix, a negative bound drops that many elements
from the end. -/
def pySlice (k : ℤ) (l : List α) : List α :=
  if 0 ≤ k then l.take k.toNat else l.take (l.length - (-k).toNat)

/-- ASCII lower-casing of one character (embeds `str.lower` on the ASCII
identifiers this system manipulates). -/
def lowerChar (c : Char) : Char :=
  if 'A' ≤ c ∧ c ≤ 'Z' then Char.ofNat (c.toNat + 32) else c

/-- Lower-case a string, as a character list. -/
def lowerList (s : String) : List Char :=
  s.toList.map lowerChar

/-- Boolean prefix test on character lists. -/
def isPrefixB : List Char → List Char → Bool
  | [], _ => true
  | _ :: _, [] => false
  | a :: as, b :: bs => a == b && isPrefixB as bs

/-- Index of the first occurrence of `pat` as a contiguous substring
(embeds Python's `str.find`, returning `none` instead of `-1`). -/
def findSubIdx (pat : List Char) : List Char → Option ℕ
  | [] => if isPrefixB pat [] then some 0 else none
  | b :: bs =>
    if isPrefixB pat (b :: bs) then some 0
    else (findSubIdx pat bs).map (· + 1)

/-- Substring containment test (embeds Python's `in` on strings). -/
def containsStr (s pat : List Char) : Bool :=
  (findSubIdx pat s).isSome

/-- Stable descending insertion by key: `x` is placed before the first
element whose key is at most `key x`, so earlier elements with an equal key
stay in front. -/
def insertDescBy (key : α → β) [LinearOrder β] (x : α) : List α → List α
  | [] => [x]
  | y :: ys => if key x ≥ key y then x :: y :: ys else y :: insertDescBy key x ys

/-- Stable descending sort by key — the embedding of Python's stable
`sort(key=..., reverse=True)`. -/
def sortDescBy (key : α → β) [LinearOrder β] : List α → List α
  | [] => []
  | x :: xs => insertDescBy key x (sortDescBy key xs)

/-- Fuel-bounded batching: `chunksAux bs fuel l` splits `l` into consecutive
pieces of size `bs`, consuming one unit of fuel per piece. -/
def chunksAux (bs : ℕ) : ℕ → List α → List (List α)
  | 0, _ => []
  | _, [] => []
  | fuel + 1, x :: xs => (x :: xs).take bs :: chunksAux bs fuel ((x :: xs).drop bs)

/-- Splits a list into consecutive batches of size `bs` (the semantics of
Python's `range(0, len(l), bs)` slicing for positive `bs`; Python raises for
`bs = 0`, so the `bs = 0` guard below is dead code under the validated
configuration assumed by the theorems). -/
def chunks (bs : ℕ) (l : List α) : List (List α) :=
  if bs = 0 then [] else chunksAux bs l.length l

/-- Sum of a list of rationals, written as Python's `sum(...)` left fold. -/
def listSum (l : List ℚ) : ℚ :=
  l.foldl (· + ·) 0

/-- Dot product of two vectors, embedding
`sum(a * b for a, b in zip(vec1, vec2))`. -/
def dotProduct (v w : List ℚ) : ℚ :=
  listSum ((v.zip w).map (fun p => p.1 * p.2))

/-- Sum of squares of the entries of a vector, the radicand of the magnitude
computation `math.sqrt(sum(a * a for a in vec))`. -/
def sumSquares (v : List ℚ) : ℚ :=
  listSum (v.map (fun a => a * a))

def lengthMismatchMsg : String := "Vectors must have same length"

/-- Embedding of `helpers.compute_cosine_similarity`.  `sq` abstracts
`math.sqrt`; the source raises `ValueError` on a length mismatch, checks the
two magnitudes against zero before dividing, and otherwise returns the
normalised dot product. -/
def compute_cosine_similarity (sq : ℚ → ℚ) (vec1 vec2 : List ℚ) : Except String ℚ :=
  if vec1.length ≠ vec2.length then .error lengthMismatchMsg
  else
    let dot := dotProduct vec1 vec2
    let magnitude1 := sq (sumSquares vec1)
    let magnitude2 := sq (sumSquares vec2)
    if magnitude1 = 0 ∨ magnitude2 = 0 then .ok 0
    else .ok (dot / (magnitude1 * magnitude2))

def batchSizeErrMsg : String := "Batch size must be positive"

/-- Embedding of `helpers.batch_list`: raises `ValueError` for a non-positive
batch size, otherwise splits the list into consecutive batches. -/
def batch_list (items : List α) (batch_size : ℤ) : Except String (List (List α)) :=
  if batch_size ≤ 0 then .error batchSizeErrMsg
  else .ok (chunks batch_size.toNat items)

/-! Data model (`src/core/models.py`).  Python `metadata` dictionaries are
embedded as the optional fields the core actually reads and writes
(`reassigned`, `original_parent_id`, `similarity_score`); `getattr(c,
'sentiment', 0.5)` is embedded as an optional `sentiment` attribute. -/

/-- Embedding of `models.Comment`. -/
structure Comment where
  id : String
  url : String := ""
  content : String := ""
  author_id : String := ""
  parent_id : String := ""
  is_video : Bool := false
  cleaned_content : String := ""
  reassigned : Option String := none
  original_parent_id : Option String := none
  similarity_score : Option ℚ := none
  sentiment : Option ℚ := none
  embedding : Option (List ℚ) := none
deriving DecidableEq

/-- Embedding of `models.Video`; `video_metadata` keeps only the keys the
unassigned-group pass writes. -/
structure Video where
  id : String
  url : String := ""
  content : String := ""
  author_id : String := ""
  comments : List Comment := []
  is_virtual : Bool := false
  is_unassigned : Bool := false
  meta_comment_count : Option ℕ := none
deriving DecidableEq

/-- Embedding of `Video.add_comment`. -/
def Video.add_comment (v : Video) (c : Comment) : Video :=
  { v with comments := v.comments ++ [c] }

/-- Embedding of `models.CommentSearchSpec`; the open `filters` dictionary is
embedded as the three keys `_apply_filters` reads. -/
structure CommentSearchSpec where
  query : String
  context : String
  min_length : Option ℤ := none
  exclude_spam : Bool := false
  require_question_mark : Bool := false
  extract_fields : List String := []
  is_static : Bool := false
  rationale : String := ""
  top_k : ℤ := 30
deriving DecidableEq

def queryRequiredMsg : String := "Search query is required"

def contextRequiredMsg : String := "Search context is required"

def topKPositiveMsg : String := "top_k must be positive"

/-- Embedding of `CommentSearchSpec.validate`: raises on an empty query or
context and on a non-positive `top_k`, otherwise returns `True`. -/
def CommentSearchSpec.validate (s : CommentSearchSpec) : Except String Bool :=
  if s.query = "" then .error queryRequiredMsg
  else if s.context = "" then .error contextRequiredMsg
  else if s.top_k ≤ 0 then .error topKPositiveMsg
  else .ok true

/-- Insight map produced by `SearchEngine._extract_insights`, embedded as the
three keys the source can populate. -/
structure Insights where
  average_sentiment : Option ℚ := none
  common_themes : Option (List String) := none
  suggestions : Option (List String) := none
deriving DecidableEq

/-- Embedding of `models.SearchResult`.  The wall-clock `execution_time`
field is not representable in a pure embedding and is omitted. -/
structure SearchResult where
  spec : CommentSearchSpec
  matched_comments : List Comment
  relevance_scores : List ℚ
  extracted_insights : Insights
  api_calls_made : ℕ
deriving DecidableEq

/-! Rate limiter (`src/utils/rate_limiter.py`).  Wall-clock time is embedded
as an explicit rational `now` parameter; `time.sleep(wait_time + 0.1)`
advances it by the slept duration.  The unbounded `while` loop is embedded
with explicit fuel: `none` means the loop did not exit within the given
number of wait iterations. -/

/-- State of `RateLimiter`: configuration plus the mutable counters and the
start of the current window. -/
structure RLState where
  requests_per_minute : ℕ
  tokens_per_minute : ℕ
  request_count : ℕ
  token_count : ℕ
  window_start : ℚ
deriving DecidableEq

/-- Embedding of `RateLimiter._reset_if_needed` at time `now`. -/
def resetIfNeeded (s : RLState) (now : ℚ) : RLState :=
  if now - s.window_start ≥ 60 then
    { s with request_count := 0, token_count := 0, window_start := now }
  else s

/-- One fuel-bounded run of the wait-and-recheck loop of
`RateLimiter.acquire`.  Returns the updated state, the time at which the
counters were incremented, and the list of slept durations (each is
`wait_time + 0.1` as in the source). -/
def acquireLoop : ℕ → RLState → ℚ → ℕ → Option (RLState × ℚ × List ℚ)
  | 0, _, _, _ => none
  | fuel + 1, s, now, est =>
    if s.request_count ≥ s.requests_per_minute ∨
        s.token_count + est > s.tokens_per_minute then
      let waitTime := max 0 (60 - (now - s.window_start))
      let slept := waitTime + 1 / 10
      let now2 := now + slept
      (acquireLoop fuel (resetIfNeeded s now2) now2 est).map
        (fun r => (r.1, r.2.1, slept :: r.2.2))
    else
      some ({ s with request_count := s.request_count + 1,
                     token_count := s.token_count + est }, now, [])

/-- Embedding of `RateLimiter.acquire(estimated_tokens)` entered at time
`now`: a reset check followed by the wait loop. -/
def RLState.acquire (fuel : ℕ) (s : RLState) (now : ℚ) (est : ℕ) :
    Option (RLState × ℚ × List ℚ) :=
  acquireLoop fuel (resetIfNeeded s now) now est

/-- Runs a sequence of `acquire` calls, each given as a (call time, estimated
tokens) pair, threading the limiter state and collecting each call's slept
durations. -/
def RLState.acquireAll (fuel : ℕ) (s : RLState) :
    List (ℚ × ℕ) → Option (RLState × List (List ℚ))
  | [] => some (s, [])
  | (t, est) :: rest =>
    match s.acquire fuel t est with
    | some (s2, _, sleeps) =>
      (RLState.acquireAll fuel s2 rest).map (fun r => (r.1, sleeps :: r.2))
    | none => none

/-! Search engine (`src/ai/search_engine.py`).  The query embedding obtained
from `Embedder.embed_text` is passed in explicitly (if that call raises, no
`SearchResult` is produced and the search-result claims are vacuous).  Each
rerank batch's completion call is an oracle value: `fail` embeds a raised
exception, `resp e` embeds a returned response text whose regex-and-JSON
extraction step (`re.search` plus `json.loads` in
`_parse_ranking_response`) yields the optional numeric array `e`. -/

/-- Embedding of `SearchEngine._semantic_filter`: score every comment that
has an embedding (`embedding is None` comments are skipped), sort descending
by similarity, take the first `top_k`. -/
def semantic_filter (sq : ℚ → ℚ) (queryEmb : List ℚ) (comments : List Comment)
    (top_k : ℤ) : Except String (List Comment × List ℚ) := do
  let withEmb := comments.filterMap (fun c => c.embedding.map (fun e => (c, e)))
  let scored ← exceptMapM (fun ce =>
    (compute_cosine_similarity sq queryEmb ce.2).map (fun s => (ce.1, s))) withEmb
  let sorted := sortDescBy (fun p => p.2) scored
  let top := pySlice top_k sorted
  pure (top.map (fun p => p.1), top.map (fun p => p.2))

def spamPatterns : List String :=
  ["http://", "https://", "bit.ly", "click here", "subscribe",
   "check out my", "visit my channel"]

/-- Embedding of `SearchEngine._is_spam`. -/
def isSpam (c : Comment) : Bool :=
  spamPatterns.any (fun p => containsStr (lowerList c.content) p.toList)

/-- Embedding of `SearchEngine._apply_filters`; the `filters` dictionary is
represented by its three recognised keys, and an empty dictionary (the
early-return case in the source) behaves exactly like three absent keys. -/
def apply_filters (comments : List Comment) (spec : CommentSearchSpec) :
    List Comment :=
  if spec.min_length = none ∧ spec.exclude_spam = false ∧
      spec.require_question_mark = false then comments
  else
    let f1 := match spec.min_length with
      | some m => comments.filter (fun c => m ≤ (c.content.length : ℤ))
      | none => comments
    let f2 := if spec.exclude_spam then f1.filter (fun c => ¬ isSpam c) else f1
    let f3 := if spec.require_question_mark then
        f2.filter (fun c => c.content.toList.contains '?')
      else f2
    f3

/-- Outcome of one rerank batch's completion call: the call raised, or it
returned a response whose extracted numeric array is the given optional
list.  The regex `[[\d\.\,\s]+]` used by the extraction admits no minus sign,
but places no upper bound on the extracted numbers. -/
inductive BatchOutcome where
  | fail : BatchOutcome
  | resp : Option (List ℚ) → BatchOutcome

/-- Embedding of `SearchEngine._parse_ranking_response`, applied to the
extracted numeric array: the array is returned exactly when its length
matches the batch size, otherwise every item falls back to the neutral score
`0.5`. -/
def parseRankingResponse (extracted : Option (List ℚ)) (expected : ℕ) : List ℚ :=
  match extracted with
  | some scores =>
    if scores.length = expected then scores else List.replicate expected (1 / 2)
  | none => List.replicate expected (1 / 2)

/-- Per-batch score lists produced by the loop of `SearchEngine._llm_rerank`:
a raised completion call yields the `except` branch's neutral scores, a
returned response goes through `_parse_ranking_response`. -/
def rerankBatchScores (oracle : ℕ → BatchOutcome) (bs : ℕ)
    (candidates : List Comment) : List (List ℚ) :=
  (chunks bs candidates).enum.map (fun p =>
    match oracle p.1 with
    | .fail => List.replicate p.2.length (1 / 2)
    | .resp e => parseRankingResponse e p.2.length)

/-- Number of completion calls counted by `_llm_rerank` (`api_calls` is
incremented only after a call returns, so raised calls are not counted). -/
def rerankApiCalls (oracle : ℕ → BatchOutcome) (bs : ℕ)
    (candidates : List Comment) : ℕ :=
  ((chunks bs candidates).enum.filter (fun p =>
    match oracle p.1 with
    | .fail => false
    | .resp _ => true)).length

def fieldSentiment : String := "sentiment"

def fieldTopics : String := "topics"

def fieldSuggestions : String := "suggestions"

def suggestionWords : List String := ["should", "could", "would", "suggest"]

def stopWords : List String :=
  ["this", "that", "with", "from", "have", "your", "been", "more", "what",
   "were", "there"]

/-- Word-character test for the `\w` class of `re.findall(r'\b\w{4,}\b', ...)`
(ASCII fragment). -/
def isWordChar (c : Char) : Bool :=
  c.isAlphanum || c == '_'

/-- Fuel-bounded maximal runs of word characters. -/
def wordRunsAux (fuel : ℕ) (l : List Char) : List (List Char) :=
  match fuel, l with
  | 0, _ => []
  | _, [] => []
  | f + 1, c :: cs =>
    if isWordChar c then
      (c :: cs.takeWhile isWordChar) :: wordRunsAux f (cs.dropWhile isWordChar)
    else wordRunsAux f cs

/-- Maximal runs of word characters in a character list; the matches of
`\b\w{4,}\b` are exactly the runs of length at least four. -/
def wordRuns (l : List Char) : List (List Char) :=
  wordRunsAux l.length l

/-- Fuel-bounded first-occurrence deduplication (the key order of a Python
`Counter` built by insertion). -/
def dedupFirstAux (fuel : ℕ) (l : List String) : List String :=
  match fuel, l with
  | 0, _ => []
  | _, [] => []
  | f + 1, x :: xs => x :: dedupFirstAux f (xs.filter (fun y => y ≠ x))

def dedupFirst (l : List String) : List String :=
  dedupFirstAux l.length l

/-- Embedding of `SearchEngine._extract_themes`: words of length at least
four from the lower-cased contents, stop words removed, the five most common
(`Counter.most_common` sorts by count descending, stable on first
occurrence). -/
def extractThemes (comments : List Comment) : List String :=
  let words := (comments.map (fun c =>
    ((wordRuns (lowerList c.content)).filter (fun r => 4 ≤ r.length)).map
      (fun r => String.mk r))).flatten
  let filteredWords := words.filter (fun w => ¬ stopWords.contains w)
  let counted := (dedupFirst filteredWords).map
    (fun w => (w, filteredWords.count w))
  ((sortDescBy (fun p => p.2) counted).take 5).map (fun p => p.1)

/-- Embedding of `SearchEngine._extract_insights` on the top comments. -/
def extract_insights (comments : List Comment) (fields : List String) :
    Insights :=
  { average_sentiment :=
      if fields.contains fieldSentiment then
        some ((comments.foldl (fun a c => a + c.sentiment.getD (1 / 2)) 0) /
          ((max comments.length 1 : ℕ) : ℚ))
      else none
    common_themes :=
      if fields.contains fieldTopics then some (extractThemes comments)
      else none
    suggestions :=
      if fields.contains fieldSuggestions then
        some (((comments.filter (fun c => suggestionWords.any
          (fun w => containsStr (lowerList c.content) w.toList))).map
            (fun c => c.content)).take 3)
      else none }

/-- Embedding of `SearchEngine._llm_rerank`: batch the candidates, score each
batch through its completion-call outcome, sort candidate/score pairs by
score descending with the stable sort, and extract insights from the top
five when requested.  Returns (comments, scores, insights, api_calls). -/
def llm_rerank (oracle : ℕ → BatchOutcome) (bs : ℕ) (candidates : List Comment)
    (spec : CommentSearchSpec) : List Comment × List ℚ × Insights × ℕ :=
  if candidates.length = 0 then ([], [], {}, 0)
  else
    let allScores := (rerankBatchScores oracle bs candidates).flatten
    let sorted := sortDescBy (fun p => p.2) (candidates.zip allScores)
    let rerankedComments := sorted.map (fun p => p.1)
    let rerankedScores := sorted.map (fun p => p.2)
    let insights :=
      if spec.extract_fields.isEmpty then ({} : Insights)
      else extract_insights (rerankedComments.take 5) spec.extract_fields
    (rerankedComments, rerankedScores, insights, rerankApiCalls oracle bs candidates)

/-- Embedding of `SearchEngine.execute_search`: stage-1 semantic filtering on
`2 * top_k`, spec filters, stage-2 rerank when any candidate survives, then
truncation of both parallel lists to `top_k`.  `api_calls` counts one query
embedding plus the completion calls that returned. -/
def execute_search (sq : ℚ → ℚ) (bs : ℕ) (oracle : ℕ → BatchOutcome)
    (queryEmb : List ℚ) (video : Video) (spec : CommentSearchSpec) :
    Except String SearchResult := do
  let stage1 ← semantic_filter sq queryEmb video.comments (spec.top_k * 2)
  let filteredCandidates := apply_filters stage1.1 spec
  let reranked :=
    if 0 < filteredCandidates.length then
      llm_rerank oracle bs filteredCandidates spec
    else ([], [], {}, 0)
  pure { spec := spec
         matched_comments := pySlice spec.top_k reranked.1
         relevance_scores := pySlice spec.top_k reranked.2.1
         extracted_insights := reranked.2.2.1
         api_calls_made := 1 + reranked.2.2.2 }

/-! Embedder and embedding cache (`src/ai/embedder.py`,
`src/utils/cache_manager.py`).  The cache is an association list keyed by a
content hash; `hashF` abstracts the deterministic `hash_text` (SHA-256).
The external encoder `OpenAIClient.create_embedding` is an oracle from the
batch's texts to either a raised exception or a vector list; Python's
`zip(batch, embeddings)` truncation is preserved. -/

abbrev EmbCache := List (String × List ℚ)

/-- Embedding of `CacheManager.get_embedding` (the hit/miss counters are
logging-only and omitted). -/
def cacheGet (cache : EmbCache) (h : String) : Option (List ℚ) :=
  (cache.find? (fun p => p.1 == h)).map (fun p => p.2)

/-- Embedding of `CacheManager.set_embedding`: the new binding shadows any
older one, as assignment into a Python dict does. -/
def cacheSet (cache : EmbCache) (h : String) (v : List ℚ) : EmbCache :=
  (h, v) :: cache

/-- Classification of one comment by the first loop of
`Embedder.embed_comments`: either its vector is already settled (kept or
assigned from the cache), or it is marked for encoding. -/
inductive Mark where
  | ready : Comment → Mark
  | needs : Comment → Mark

/-- One comment's pass through the cache-first loop of `embed_comments`: a
comment is considered only when `force_refresh` is set or it has no vector;
a cached vector is used only when it is truthy (non-empty) and
`force_refresh` is off. -/
def markComment (hashF : String → String) (cache : EmbCache)
    (forceRefresh : Bool) (c : Comment) : Mark :=
  if forceRefresh = true ∨ c.embedding = none then
    match cacheGet cache (hashF c.cleaned_content) with
    | some v =>
      if v.isEmpty = false ∧ forceRefresh = false then
        .ready { c with embedding := some v }
      else .needs c
    | none => .needs c
  else .ready c

def Mark.comment : Mark → Comment
  | .ready c => c
  | .needs c => c

def Mark.needsComment : Mark → Option Comment
  | .ready _ => none
  | .needs c => some c

/-- The batch loop of `embed_comments`: one encoder call per batch; a raised
call leaves the whole batch vector-less and the loop continues; a returned
vector list is zipped onto the batch (truncating, as `zip` does) and written
into the cache.  Returns (processed comments in order, cache, number of
encoder calls issued). -/
def embedBatches (oracle : List String → Except Unit (List (List ℚ)))
    (hashF : String → String) :
    List (List Comment) → EmbCache → List Comment × EmbCache × ℕ
  | [], cache => ([], cache, 0)
  | b :: bs, cache =>
    match oracle (b.map (fun c => c.cleaned_content)) with
    | .ok embs =>
      let updated := (b.zip embs).map (fun p => { p.1 with embedding := some p.2 })
        ++ b.drop embs.length
      let cache2 := (b.zip embs).foldl
        (fun acc p => cacheSet acc (hashF p.1.cleaned_content) p.2) cache
      let rest := embedBatches oracle hashF bs cache2
      (updated ++ rest.1, rest.2.1, rest.2.2 + 1)
    | .error _ =>
      let rest := embedBatches oracle hashF bs cache
      (b ++ rest.1, rest.2.1, rest.2.2 + 1)

/-- Result of `Embedder.embed_comments`: the comment list (same order, with
embeddings populated), the cache, and the number of external encoder calls
issued. -/
structure EmbedOutcome where
  comments : List Comment
  cache : EmbCache
  apiCalls : ℕ
deriving DecidableEq

/-- Reassembles the comment list from the marks, substituting the processed
versions of the marked-for-encoding comments in order. -/
def mergeMarks : List Mark → List Comment → List Comment
  | [], _ => []
  | .ready c :: ms, es => c :: mergeMarks ms es
  | .needs _ :: ms, e :: es => e :: mergeMarks ms es
  | .needs c :: ms, [] => c :: mergeMarks ms []

/-- Embedding of `Embedder.embed_comments`: cache-first classification, an
early return when nothing needs encoding (before `batch_list`, so an invalid
batch size cannot raise then), then the batch loop.  The final
`save_cache()` is a persistence side effect outside the pure state. -/
def embed_comments (oracle : List String → Except Unit (List (List ℚ)))
    (hashF : String → String) (embeddingBatchSize : ℤ) (cache : EmbCache)
    (comments : List Comment) (forceRefresh : Bool) :
    Except String EmbedOutcome :=
  let marks := comments.map (markComment hashF cache forceRefresh)
  let toEmbed := marks.filterMap Mark.needsComment
  if toEmbed.isEmpty then .ok ⟨mergeMarks marks [], cache, 0⟩
  else
    (batch_list toEmbed embeddingBatchSize).map (fun batches =>
      let r := embedBatches oracle hashF batches cache
      ⟨mergeMarks marks r.1, r.2.1, r.2.2⟩)

/-! Orphaned-comment reassigner (`src/data/orphaned_reassigner.py`).  The
embedder dependency is abstracted as a presence flag plus a per-comment
embedding-population function `embedF` standing for the effect of
`self.embedder.embed_comments` on each orphan; iteration over the Python set
`video_ids` is embedded as iteration over the video list's order. -/

/-- The reassigner's running statistics dictionary. -/
structure RStats where
  total_orphaned : ℕ := 0
  recovered_by_pattern : ℕ := 0
  recovered_by_similarity : ℕ := 0
  unassigned : ℕ := 0
  recovery_rate : ℚ := 0
deriving DecidableEq

/-- Instance state of `OrphanedCommentReassigner`. -/
structure Reassigner where
  hasEmbedder : Bool
  similarity_threshold : ℚ
  create_unassigned_video : Bool
  stats : RStats
deriving DecidableEq

/-- Embedding of `OrphanedCommentReassigner.__init__`: the arguments are
stored as given — the constructor performs no validation of the similarity
threshold — and the statistics start at zero. -/
def OrphanedCommentReassigner.init (hasEmbedder : Bool)
    (similarity_threshold : ℚ) (create_unassigned_video : Bool) : Reassigner :=
  ⟨hasEmbedder, similarity_threshold, create_unassigned_video, {}⟩

def tagPatternExact : String := "pattern_exact"

def tagPatternSubstring : String := "pattern_substring"

def tagPatternUrl : String := "pattern_url"

def tagSemantic : String := "semantic"

def tagUnassigned : String := "unassigned"

def watchMarker : String := "watch?v="

def youtuMarker : String := "youtu.be/"

/-- Embedding of `OrphanedCommentReassigner._extract_video_id_from_url`:
eleven characters after the first URL marker (the `try` block cannot raise,
since Python slicing is total). -/
def extract_video_id_from_url (url : String) : Option String :=
  let cs := url.toList
  if containsStr cs watchMarker.toList then
    match findSubIdx watchMarker.toList cs with
    | some i => some (String.mk ((cs.drop (i + 8)).take 11))
    | none => none
  else if containsStr cs youtuMarker.toList then
    match findSubIdx youtuMarker.toList cs with
    | some i => some (String.mk ((cs.drop (i + 9)).take 11))
    | none => none
  else none

/-- The per-orphan rule cascade of `match_by_pattern` with its `matched`
flag: case-insensitive exact equality first, then substring containment in
either direction, then URL extraction; each `for ... break` over the id set
is a first-match search.  Returns the matched video id and provenance tag. -/
def patternStep (videoIds : List String) (c : Comment) : Option (String × String) :=
  let parentLower := lowerList c.parent_id
  match videoIds.find? (fun vid => lowerList vid == parentLower) with
  | some vid => some (vid, tagPatternExact)
  | none =>
    match videoIds.find? (fun vid =>
        containsStr c.parent_id.toList vid.toList ||
        containsStr vid.toList c.parent_id.toList) with
    | some vid => some (vid, tagPatternSubstring)
    | none =>
      if containsStr c.parent_id.toList watchMarker.toList ||
          containsStr c.parent_id.toList youtuMarker.toList then
        match extract_video_id_from_url c.parent_id with
        | some eid =>
          if videoIds.contains eid then some (eid, tagPatternUrl) else none
        | none => none
      else none

/-- Appends a comment to the video with the given id (`video_lookup[vid]
.add_comment`; ids are unique per the data model). -/
def addToVideo (vs : List Video) (vid : String) (c : Comment) : List Video :=
  vs.map (fun v => if v.id = vid then v.add_comment c else v)

/-- Increments one key of the per-video assignment counter. -/
def bumpCount (l : List (String × ℕ)) (k : String) : List (String × ℕ) :=
  l.map (fun p => if p.1 = k then (p.1, p.2 + 1) else p)

/-- One iteration of the pass-1 loop body: a match moves the tagged orphan
into the video and bumps the assignment counter, a miss appends the orphan
to `remaining`. -/
def patternFoldStep (videoIds : List String)
    (acc : List Video × List Comment × List (String × ℕ)) (c : Comment) :
    List Video × List Comment × List (String × ℕ) :=
  match patternStep videoIds c with
  | some p =>
    let tagged := { c with reassigned := some p.2,
                           original_parent_id := some c.parent_id }
    (addToVideo acc.1 p.1 tagged, acc.2.1, bumpCount acc.2.2 p.1)
  | none => (acc.1, acc.2.1 ++ [c], acc.2.2)

/-- Embedding of `OrphanedCommentReassigner.match_by_pattern` (pass 1):
each orphan runs the rule cascade via `patternFoldStep`; afterwards
`recovered_by_pattern` is set to the recovered count. -/
def match_by_pattern (R : Reassigner) (orphaned : List Comment)
    (videos : List Video) :
    (List Video × List Comment × List (String × ℕ)) × Reassigner :=
  let videoIds := videos.map (fun v => v.id)
  let init : List Video × List Comment × List (String × ℕ) :=
    (videos, [], videos.map (fun v => (v.id, 0)))
  let result := orphaned.foldl (patternFoldStep videoIds) init
  (result,
   { R with stats :=
      { R.stats with recovered_by_pattern := orphaned.length - result.2.1.length } })

/-- The per-video embedding snapshot built before the pass-2 loop
(`video_embeddings`): for each video, the vectors of its truthily-embedded
comments; videos with none are excluded.  Assignments made during the loop
do not alter this snapshot, exactly as in the source. -/
def videoEmbeddings (videos : List Video) : List (Video × List (List ℚ)) :=
  videos.filterMap (fun v =>
    let embs := v.comments.filterMap (fun c =>
      match c.embedding with
      | some e => if e.isEmpty then none else some e
      | none => none)
    if embs.isEmpty then none else some (v, embs))

/-- Arithmetic mean of the cosine similarities between `x` and every vector
of one video's snapshot (`sum(similarities) / len(similarities)`). -/
def meanSimilarity (sq : ℚ → ℚ) (x : List ℚ) (embs : List (List ℚ)) :
    Except String ℚ := do
  let sims ← exceptMapM (compute_cosine_similarity sq x) embs
  pure (listSum sims / (sims.length : ℚ))

/-- The best-video fold of pass 2: starting from `best_video = None`,
`best_score = 0.0`, keep the first video whose mean strictly exceeds the
running best. -/
def bestMatch (sq : ℚ → ℚ) (x : List ℚ) (ves : List (Video × List (List ℚ))) :
    Except String (Option Video × ℚ) :=
  exceptFoldlM (fun best p => do
    let avg ← meanSimilarity sq x p.2
    pure (if avg > best.2 then (some p.1, avg) else best))
    ((none : Option Video), (0 : ℚ)) ves

/-- One orphan's pass through the pass-2 loop: orphans without a truthy
embedding are skipped; otherwise the orphan is assigned exactly when the
fold produced a video (`if best_video and best_score >= threshold`). -/
def simStep (sq : ℚ → ℚ) (thr : ℚ) (ves : List (Video × List (List ℚ)))
    (c : Comment) : Except String (Option (Video × ℚ)) :=
  match c.embedding with
  | none => pure none
  | some e =>
    if e.isEmpty then pure none
    else do
      let best ← bestMatch sq e ves
      match best.1 with
      | some v => if best.2 ≥ thr then pure (some (v, best.2)) else pure none
      | none => pure none

/-- Appends one (comment, score) pair to a video's slot of the pass-2
assignments dictionary. -/
def appendAssign (l : List (String × List (Comment × ℚ))) (k : String)
    (c : Comment) (score : ℚ) : List (String × List (Comment × ℚ)) :=
  l.map (fun p => if p.1 = k then (p.1, p.2 ++ [(c, score)]) else p)

/-- One iteration of the pass-2 loop body: an assigned orphan is tagged with
`semantic` provenance and the achieved score, moved into the best video and
recorded in the assignments dictionary; an unassigned orphan is appended to
`remaining`. -/
def simFoldStep (sq : ℚ → ℚ) (thr : ℚ) (ves : List (Video × List (List ℚ)))
    (acc : List Video × List Comment × List (String × List (Comment × ℚ)))
    (c : Comment) :
    Except String (List Video × List Comment × List (String × List (Comment × ℚ))) := do
  let r ← simStep sq thr ves c
  match r with
  | some vs =>
    let tagged := { c with reassigned := some tagSemantic,
                           similarity_score := some vs.2,
                           original_parent_id := some c.parent_id }
    pure (addToVideo acc.1 vs.1.id tagged, acc.2.1,
          appendAssign acc.2.2 vs.1.id tagged vs.2)
  | none => pure (acc.1, acc.2.1 ++ [c], acc.2.2)

/-- Embedding of `OrphanedCommentReassigner.match_by_similarity` (pass 2):
early returns without touching the statistics when no embedder is present or
no orphan remains; otherwise embeds the orphans (`embedF`), snapshots the
video vectors, and processes each orphan through `simStep`, tagging assigned
orphans with `semantic` provenance and the achieved score.  Sets
`recovered_by_similarity` at the end. -/
def match_by_similarity (R : Reassigner) (sq : ℚ → ℚ)
    (embedF : Comment → Comment) (orphaned : List Comment)
    (videos : List Video) :
    Except String
      ((List Video × List Comment × List (String × List (Comment × ℚ))) × Reassigner) :=
  if R.hasEmbedder = false then .ok ((videos, orphaned, []), R)
  else if orphaned.isEmpty then .ok ((videos, [], videos.map (fun v => (v.id, []))), R)
  else do
    let embedded := orphaned.map embedF
    let ves := videoEmbeddings videos
    let init : List Video × List Comment × List (String × List (Comment × ℚ)) :=
      (videos, [], videos.map (fun v => (v.id, [])))
    let result ← exceptFoldlM (simFoldStep sq R.similarity_threshold ves) init embedded
    .ok (result,
      { R with stats :=
        { R.stats with
            recovered_by_similarity := embedded.length - result.2.1.length } })

def unassignedVideoId : String := "UNASSIGNED"

def unassignedVideoUrl : String := "unassigned://orphaned-comments"

def unassignedVideoContent : String :=
  "Unassigned Orphaned Comments (No Parent Video Found)"

def systemAuthorId : String := "SYSTEM"

/-- Embedding of `OrphanedCommentReassigner.create_unassigned_group`
(pass 3): nothing to do on an empty list; with creation disabled only the
`unassigned` statistic is written; otherwise all remaining orphans are
tagged `unassigned` and collected into the virtual video. -/
def create_unassigned_group (R : Reassigner) (orphaned : List Comment) :
    Option Video × Reassigner :=
  if orphaned.isEmpty then (none, R)
  else if R.create_unassigned_video = false then
    (none, { R with stats := { R.stats with unassigned := orphaned.length } })
  else
    let tagged := orphaned.map (fun c =>
      { c with reassigned := some tagUnassigned,
               original_parent_id := some c.parent_id })
    let uv : Video :=
      { id := unassignedVideoId, url := unassignedVideoUrl,
        content := unassignedVideoContent, author_id := systemAuthorId,
        comments := tagged, is_virtual := true, is_unassigned := true,
        meta_comment_count := some orphaned.length }
    (some uv, { R with stats := { R.stats with unassigned := orphaned.length } })

/-- Embedding of `OrphanedCommentReassigner.reassign_comments`: sets
`total_orphaned`, returns early on no orphans, then runs pass 1 always,
pass 2 only when an embedder is present and orphans remain, pass 3 only when
orphans still remain, and finally computes the recovery rate.
(`analyze_parent_ids` only logs a histogram and does not affect the result.)
Note that only the statistics fields touched by the passes that actually ran
are overwritten — the others keep whatever value the instance held before
the call. -/
def reassign_comments (R0 : Reassigner) (sq : ℚ → ℚ)
    (embedF : Comment → Comment) (videos : List Video)
    (orphaned : List Comment) : Except String (List Video × Reassigner) :=
  let R := { R0 with stats := { R0.stats with total_orphaned := orphaned.length } }
  if orphaned.isEmpty then .ok (videos, R)
  else do
    let p1 := match_by_pattern R orphaned videos
    let videos1 := p1.1.1
    let remaining1 := p1.1.2.1
    let R1 := p1.2
    let p2 ←
      if R1.hasEmbedder = true ∧ ¬ remaining1.isEmpty then
        match_by_similarity R1 sq embedF remaining1 videos1
      else .ok ((videos1, remaining1, []), R1)
    let videos2 := p2.1.1
    let remaining2 := p2.1.2.1
    let R2 := p2.2
    let p3 :=
      if ¬ remaining2.isEmpty then create_unassigned_group R2 remaining2
      else (none, R2)
    let videos3 := match p3.1 with
      | some uv => videos2 ++ [uv]
      | none => videos2
    let R3 := p3.2
    let totalRecovered :=
      R3.stats.recovered_by_pattern + R3.stats.recovered_by_similarity
    let rate :=
      if 0 < R3.stats.total_orphaned then
        (totalRecovered : ℚ) / (R3.stats.total_orphaned : ℚ)
      else 0
    .ok (videos3, { R3 with stats := { R3.stats with recovery_rate := rate } })

def c5hash : String → String := fun s => s

def c5oracleFail : List String → Except Unit (List (List ℚ)) := fun _ => .error ()

def c5comment : Comment := { id := "c1", cleaned_content := "x" }

instance {ε α : Type _} [DecidableEq ε] [DecidableEq α] :
    DecidableEq (Except ε α) := fun x y =>
  match x, y with
  | .ok a, .ok b =>
    if h : a = b then .isTrue (by rw [h])
    else .isFalse (fun hxy => h (Except.ok.inj hxy))
  | .error a, .error b =>
    if h : a = b then .isTrue (by rw [h])
    else .isFalse (fun hxy => h (Except.error.inj hxy))
  | .ok _, .error _ => .isFalse (fun hxy => Except.noConfusion hxy)
  | .error _, .ok _ => .isFalse (fun hxy => Except.noConfusion hxy)

def c1r0 : Reassigner := OrphanedCommentReassigner.init false 0 true

def c1orphan1 : Comment := { id := "o1", parent_id := "zzz" }

def c1orphan2 : Comment := { id := "o2", parent_id := "A" }

def c1videoA : Video := { id := "A" }

def c1run1 : Except String (List Video × Reassigner) :=
  reassign_comments c1r0 id id [] [c1orphan1]

def c1run1Videos : List Video :=
  match c1run1 with
  | .ok p => p.1
  | .error _ => []

def c1R1 : Reassigner :=
  match c1run1 with
  | .ok p => p.2
  | .error _ => c1r0

def c1run2 : Except String (List Video × Reassigner) :=
  reassign_comments c1R1 id id [c1videoA] [c1orphan2]

def c1R2 : Reassigner :=
  match c1run2 with
  | .ok p => p.2
  | .error _ => c1r0

def c5oracleOk : List String → Except Unit (List (List ℚ)) :=
  fun texts => .ok (texts.map (fun _ => [1]))

def c5runOk : Except String EmbedOutcome :=
  embed_comments c5oracleOk c5hash 100 [] [c5comment] false

def c5out : EmbedOutcome :=
  match c5runOk with
  | .ok o => o
  | .error _ => ⟨[], [], 0⟩

def c6video : Video :=
  { id := "B", comments := [{ id := "b1", embedding := some [(1 : ℚ), 0] }] }

def c6orphan : Comment :=
  { id := "o1", parent_id := "p1", embedding := some [(0 : ℚ), 1] }

def c6wvideo : Video :=
  { id := "W", comments := [{ id := "w1", embedding := some [(1 : ℚ)] }] }

def c6worphan : Comment :=
  { id := "wo", parent_id := "pw", embedding := some [(1 : ℚ)] }

def c2spec : CommentSearchSpec := { query := "q", context := "t", top_k := 1 }

def c2video : Video := { id := "V" }

def c2oracleFail : ℕ → BatchOutcome := fun _ => .fail

def c2run : Except String SearchResult :=
  execute_search id 20 c2oracleFail [(1 : ℚ)] c2video c2spec

def c2res : SearchResult :=
  match c2run with
  | .ok r => r
  | .error _ => { spec := c2spec, matched_comments := [],
                  relevance_scores := [], extracted_insights := {},
                  api_calls_made := 0 }

def c2xspec : CommentSearchSpec := { query := "q", context := "t", top_k := 1 }

def c2xcomment : Comment :=
  { id := "x1", content := "hello", embedding := some [(1 : ℚ)] }

def c2xvideo : Video := { id := "X", comments := [c2xcomment] }

def c2xoracle : ℕ → BatchOutcome := fun _ => .resp (some [5])

theorem insertDescBy_perm (key : α → β) [LinearOrder β] (x : α) (l : List α) :
    (insertDescBy key x l).Perm (x :: l) := by
  induction l with
  | nil => simp [insertDescBy]
  | cons y ys ih =>
    by_cases h : key x ≥ key y
    · simp [insertDescBy, h]
    · simp only [insertDescBy, if_neg h]
      exact ((ih.cons y).trans (List.Perm.swap x y ys))

theorem sortDescBy_perm (key : α → β) [LinearOrder β] (l : List α) :
    (sortDescBy key l).Perm l := by
  induction l with
  | nil => simp [sortDescBy]
  | cons x xs ih =>
    exact (insertDescBy_perm key x (sortDescBy key xs)).trans (ih.cons x)

theorem insertDescBy_pairwise (key : α → β) [LinearOrder β] (x : α) (l : List α)
    (h : l.Pairwise (fun a b => key a ≥ key b)) :
    (insertDescBy key x l).Pairwise (fun a b => key a ≥ key b) := by
  induction l with
  | nil => simp [insertDescBy]
  | cons y ys ih =>
    rcases List.pairwise_cons.mp h with ⟨hy, hys⟩
    by_cases hxy : key x ≥ key y
    · rw [insertDescBy, if_pos hxy]
      refine List.pairwise_cons.mpr ⟨?_, h⟩
      intro b hb
      rcases List.mem_cons.mp hb with hb1 | hb1
      · exact hb1 ▸ hxy
      · exact le_trans (hy b hb1) hxy
    · rw [insertDescBy, if_neg hxy]
      refine List.pairwise_cons.mpr ⟨?_, ih hys⟩
      intro b hb
      have hmem := (insertDescBy_perm key x ys).mem_iff.mp hb
      rcases List.mem_cons.mp hmem with hb1 | hb1
      · exact hb1 ▸ (le_of_lt (lt_of_not_ge hxy))
      · exact hy b hb1

theorem sortDescBy_pairwise (key : α → β) [LinearOrder β] (l : List α) :
    (sortDescBy key l).Pairwise (fun a b => key a ≥ key b) := by
  induction l with
  | nil => simp [sortDescBy]
  | cons x xs ih => exact insertDescBy_pairwise key x _ ih

theorem chunksAux_flatten (bs : ℕ) (hbs : 1 ≤ bs) :
    ∀ (fuel : ℕ) (l : List α), l.length ≤ fuel → (chunksAux bs fuel l).flatten = l := by
  intro fuel
  induction fuel with
  | zero =>
    intro l hl
    have : l = [] := List.eq_nil_of_length_eq_zero (Nat.le_zero.mp hl)
    simp [this, chunksAux]
  | succ f ih =>
    intro l hl
    cases l with
    | nil => simp [chunksAux]
    | cons x xs =>
      have hdrop : ((x :: xs).drop bs).length ≤ f := by
        have : (x :: xs).length - bs ≤ f := by
          have hx : (x :: xs).length ≤ f + 1 := hl
          omega
        simpa [List.length_drop] using this
      simp only [chunksAux, List.flatten_cons]
      rw [ih _ hdrop, List.take_append_drop]

theorem chunks_flatten (bs : ℕ) (hbs : 1 ≤ bs) (l : List α) : (chunks bs l).flatten = l := by
  have : bs ≠ 0 := Nat.one_le_iff_ne_zero.mp hbs
  simp only [chunks, if_neg this]
  exact chunksAux_flatten bs hbs l.length l le_rfl

/-! Theorems. -/

theorem foldl_add_nonneg (l : List ℚ) :
    ∀ a : ℚ, 0 ≤ a → (∀ x ∈ l, 0 ≤ x) → 0 ≤ l.foldl (· + ·) a := by
  induction l with
  | nil => intro a ha _; simpa using ha
  | cons x xs ih =>
    intro a ha h
    have hx : 0 ≤ x := h x (List.mem_cons_self x xs)
    exact ih (a + x) (by linarith) (fun y hy => h y (List.mem_cons_of_mem x hy))

theorem listSum_nonneg (l : List ℚ) (h : ∀ x ∈ l, 0 ≤ x) : 0 ≤ listSum l :=
  foldl_add_nonneg l 0 le_rfl h

theorem sumSquares_nonneg (v : List ℚ) : 0 ≤ sumSquares v := by
  refine listSum_nonneg _ ?_
  intro x hx
  rcases List.mem_map.mp hx with ⟨a, _, rfl⟩
  exact mul_self_nonneg a

/-- C10: `compute_cosine_similarity` is total on every pair of equal-length
vectors, returning `0.0` (instead of dividing by zero) whenever either
vector has zero magnitude (equivalently, a zero sum of squares), and it
raises `ValueError` exactly when the two vectors have different lengths.
`sq` abstracts `math.sqrt` and is assumed to send exactly `0` to `0` on the
non-negative radicands that occur. -/
theorem cosine_similarity_total_and_guarded (sq : ℚ → ℚ)
    (hsq : ∀ x : ℚ, 0 ≤ x → (sq x = 0 ↔ x = 0)) (v w : List ℚ) :
    (v.length ≠ w.length →
      compute_cosine_similarity sq v w = .error lengthMismatchMsg) ∧
    (v.length = w.length → ∃ q, compute_cosine_similarity sq v w = .ok q) ∧
    (v.length = w.length → sumSquares v = 0 ∨ sumSquares w = 0 →
      compute_cosine_similarity sq v w = .ok 0) := by
  refine ⟨?_, ?_, ?_⟩
  · intro hne
    simp [compute_cosine_similarity, hne]
  · intro heq
    by_cases hz : sq (sumSquares v) = 0 ∨ sq (sumSquares w) = 0
    · exact ⟨0, by simp [compute_cosine_similarity, heq, hz]⟩
    · exact ⟨dotProduct v w / (sq (sumSquares v) * sq (sumSquares w)),
        by simp [compute_cosine_similarity, heq, hz]⟩
  · intro heq hzero
    have hz : sq (sumSquares v) = 0 ∨ sq (sumSquares w) = 0 := by
      rcases hzero with h0 | h0
      · exact Or.inl ((hsq _ (sumSquares_nonneg v)).mpr h0)
      · exact Or.inr ((hsq _ (sumSquares_nonneg w)).mpr h0)
    simp [compute_cosine_similarity, heq, hz]

/-- Witness for C10 at the zero vector `[0, 0]` against `[1, 1]`, with
`math.sqrt` instantiated by the identity (which is zero exactly at zero). -/
theorem cosine_similarity_witness :
    ([0, 0] : List ℚ).length = ([1, 1] : List ℚ).length ∧
    compute_cosine_similarity id [0, 0] [1, 1] = .ok 0 := by
  constructor
  · rfl
  · refine (cosine_similarity_total_and_guarded id ?_ [0, 0] [1, 1]).2.2 rfl ?_
    · intro x _
      simp
    · left
      norm_num [sumSquares, listSum]

/-- C8 (amended): a non-positive batch size raises immediately in
`batch_list` (and a positive one yields batches that concatenate back to
the input), and a non-positive `top_k` raises in
`CommentSearchSpec.validate`; but a negative similarity threshold is NOT
validated — `OrphanedCommentReassigner.__init__` stores it as given. -/
theorem config_errors_batch_topk_raise_threshold_not (items : List α)
    (bs : ℤ) (spec : CommentSearchSpec) :
    (bs ≤ 0 → batch_list items bs = .error batchSizeErrMsg) ∧
    (1 ≤ bs → batch_list items bs = .ok (chunks bs.toNat items) ∧
      (chunks bs.toNat items).flatten = items) ∧
    (spec.query ≠ "" → spec.context ≠ "" → spec.top_k ≤ 0 →
      spec.validate = .error topKPositiveMsg) ∧
    (∀ (hasE create : Bool) (thr : ℚ),
      (OrphanedCommentReassigner.init hasE thr create).similarity_threshold = thr) := by
  refine ⟨?_, ?_, ?_, ?_⟩
  · intro h
    simp [batch_list, h]
  · intro h
    have hpos : ¬ bs ≤ 0 := by omega
    refine ⟨by simp [batch_list, hpos], ?_⟩
    refine chunks_flatten bs.toNat ?_ items
    omega
  · intro hq hc hk
    simp [CommentSearchSpec.validate, hq, hc, hk]
  · intro hasE create thr
    rfl

/-- Witness for C8 at batch size `-3`, a spec with `top_k = 0`, and
threshold `-1`. -/
theorem config_errors_witness :
    batch_list ([0, 1, 2] : List ℕ) (-3) = .error batchSizeErrMsg ∧
    batch_list ([0, 1, 2] : List ℕ) 2 = .ok [[0, 1], [2]] ∧
    CommentSearchSpec.validate { query := "q", context := "c", top_k := 0 } =
      .error topKPositiveMsg ∧
    (OrphanedCommentReassigner.init false (-1) true).similarity_threshold = -1 := by
  have h := config_errors_batch_topk_raise_threshold_not ([0, 1, 2] : List ℕ)
    (-3) { query := "q", context := "c", top_k := 0 }
  have h2 := config_errors_batch_topk_raise_threshold_not ([0, 1, 2] : List ℕ)
    2 { query := "q", context := "c", top_k := 0 }
  refine ⟨h.1 (by norm_num), ?_, ?_, ?_⟩
  · have := (h2.2.1 (by norm_num)).1
    rw [this]
    rfl
  · exact h.2.2.1 (by simp) (by simp) (by norm_num)
  · exact h.2.2.2 false true (-1)

/-- Counterexample for C8: constructing the reassigner with the negative
similarity threshold `-1` is accepted silently — the threshold is stored
as-is and a subsequent `reassign_comments` run on a concrete input returns
normally instead of raising. -/
theorem negative_threshold_accepted_counterexample :
    (OrphanedCommentReassigner.init false (-1) true).similarity_threshold = -1 ∧
    (reassign_comments (OrphanedCommentReassigner.init false (-1) true) id id
      [{ id := "A" }] [{ id := "c1", parent_id := "zzz" }]).toOption.isSome = true := by
  constructor
  · rfl
  · decide

theorem resetIfNeeded_rpm (s : RLState) (now : ℚ) :
    (resetIfNeeded s now).requests_per_minute = s.requests_per_minute := by
  unfold resetIfNeeded
  split <;> rfl

theorem resetIfNeeded_tpm (s : RLState) (now : ℚ) :
    (resetIfNeeded s now).tokens_per_minute = s.tokens_per_minute := by
  unfold resetIfNeeded
  split <;> rfl

theorem resetIfNeeded_of_ge (s : RLState) (now : ℚ) (h : now - s.window_start ≥ 60) :
    resetIfNeeded s now =
      { s with request_count := 0, token_count := 0, window_start := now } := by
  rw [resetIfNeeded, if_pos h]

theorem resetIfNeeded_of_lt (s : RLState) (now : ℚ) (h : ¬ now - s.window_start ≥ 60) :
    resetIfNeeded s now = s := by
  rw [resetIfNeeded, if_neg h]

theorem acquireLoop_exit (fuel : ℕ) (s : RLState) (now : ℚ) (est : ℕ)
    (h : ¬ (s.request_count ≥ s.requests_per_minute ∨
      s.token_count + est > s.tokens_per_minute)) :
    acquireLoop (fuel + 1) s now est =
      some ({ s with request_count := s.request_count + 1,
                     token_count := s.token_count + est }, now, []) := by
  rw [acquireLoop, if_neg h]

theorem acquireLoop_sleep (fuel : ℕ) (s : RLState) (now : ℚ) (est : ℕ)
    (h : s.request_count ≥ s.requests_per_minute ∨
      s.token_count + est > s.tokens_per_minute) :
    acquireLoop (fuel + 1) s now est =
      (acquireLoop fuel
        (resetIfNeeded s (now + (max 0 (60 - (now - s.window_start)) + 1 / 10)))
        (now + (max 0 (60 - (now - s.window_start)) + 1 / 10)) est).map
        (fun r => (r.1, r.2.1, (max 0 (60 - (now - s.window_start)) + 1 / 10) :: r.2.2)) := by
  rw [acquireLoop, if_pos h]

theorem sleep_crosses_window (s : RLState) (now : ℚ) :
    now + (max 0 (60 - (now - s.window_start)) + 1 / 10) - s.window_start ≥ 60 := by
  have h1 : max 0 (60 - (now - s.window_start)) ≥ 60 - (now - s.window_start) :=
    le_max_right _ _
  linarith

theorem acquireLoop_none_of_over (est : ℕ) :
    ∀ (fuel : ℕ) (s : RLState) (now : ℚ), s.tokens_per_minute < est →
      acquireLoop fuel s now est = none := by
  intro fuel
  induction fuel with
  | zero => intro s now _; rfl
  | succ f ih =>
    intro s now h
    rw [acquireLoop_sleep f s now est (Or.inr (by omega))]
    rw [ih _ _ (by rw [resetIfNeeded_tpm]; exact h)]
    rfl

/-- C9: the wait loop of `acquire` terminates — within at most one sleep —
whenever the estimated cost fits the token budget (`est ≤ tokens_per_minute`,
with at least one request per minute allowed, as in every deployed
configuration); and whenever the estimated cost strictly exceeds
`tokens_per_minute`, the guard `token_count + est > tokens_per_minute` holds
at every iteration — even right after a window reset — so the loop never
exits, for any amount of fuel: the call never returns. -/
theorem acquire_terminates_iff_cost_fits :
    (∀ (s : RLState) (now : ℚ) (est : ℕ),
      est ≤ s.tokens_per_minute → 1 ≤ s.requests_per_minute →
      ∃ r, RLState.acquire 2 s now est = some r) ∧
    (∀ (s : RLState) (now : ℚ) (est : ℕ) (fuel : ℕ),
      s.tokens_per_minute < est → RLState.acquire fuel s now est = none) := by
  constructor
  · intro s now est hest hreq
    rw [RLState.acquire]
    set s1 := resetIfNeeded s now with hs1
    have hrpm : s1.requests_per_minute = s.requests_per_minute := resetIfNeeded_rpm s now
    have htpm : s1.tokens_per_minute = s.tokens_per_minute := resetIfNeeded_tpm s now
    by_cases hguard : s1.request_count ≥ s1.requests_per_minute ∨
        s1.token_count + est > s1.tokens_per_minute
    · have hcross := sleep_crosses_window s1 now
      have hguard2 : ¬ ((0 : ℕ) ≥ s1.requests_per_minute ∨
          (0 : ℕ) + est > s1.tokens_per_minute) := by omega
      refine Option.isSome_iff_exists.mp ?_
      rw [show (2 : ℕ) = 1 + 1 from rfl,
          acquireLoop_sleep 1 s1 now est hguard,
          resetIfNeeded_of_ge _ _ hcross,
          acquireLoop_exit 0 _ _ est hguard2]
      rfl
    · refine Option.isSome_iff_exists.mp ?_
      rw [show (2 : ℕ) = 1 + 1 from rfl,
          acquireLoop_exit 1 s1 now est hguard]
      rfl
  · intro s now est fuel h
    rw [RLState.acquire]
    exact acquireLoop_none_of_over est fuel _ now (by rw [resetIfNeeded_tpm]; exact h)

/-- Witness for C9: with one request per minute and a ten-token budget, a
five-token acquisition returns, while an eleven-token acquisition never
exits the wait loop. -/
theorem acquire_terminates_witness :
    (∃ r, RLState.acquire 2 ⟨1, 10, 0, 0, 0⟩ 0 5 = some r) ∧
    RLState.acquire 3 ⟨1, 10, 0, 0, 0⟩ 0 11 = none :=
  ⟨acquire_terminates_iff_cost_fits.1 ⟨1, 10, 0, 0, 0⟩ 0 5 (by norm_num) (by norm_num),
   acquire_terminates_iff_cost_fits.2 ⟨1, 10, 0, 0, 0⟩ 0 11 3 (by norm_num)⟩

theorem acquireAll_cons (fuel : ℕ) (s : RLState) (t : ℚ) (est : ℕ)
    (rest : List (ℚ × ℕ)) :
    RLState.acquireAll fuel s ((t, est) :: rest) =
      match RLState.acquire fuel s t est with
      | some (s2, _, sleeps) =>
        (RLState.acquireAll fuel s2 rest).map (fun r => (r.1, sleeps :: r.2))
      | none => none := rfl

theorem acquireAll_cost1_in_window (R T : ℕ) (t0 : ℚ) (hR : 1 ≤ R) (hT : R ≤ T) :
    ∀ (ts : List ℚ) (k : ℕ), k + ts.length ≤ R →
      (∀ t ∈ ts, t0 ≤ t ∧ t - t0 < 60) →
      RLState.acquireAll 2 ⟨R, T, k, k, t0⟩ (ts.map (fun t => (t, 1))) =
        some (⟨R, T, k + ts.length, k + ts.length, t0⟩, List.replicate ts.length []) := by
  intro ts
  induction ts with
  | nil =>
    intro k _ _
    simp [RLState.acquireAll]
  | cons t ts ih =>
    intro k hk hts
    obtain ⟨ht0, ht60⟩ := hts t (List.mem_cons_self t ts)
    have hnores : resetIfNeeded ⟨R, T, k, k, t0⟩ t = ⟨R, T, k, k, t0⟩ :=
      resetIfNeeded_of_lt _ _ (by show ¬ t - t0 ≥ 60; linarith)
    have hguard : ¬ (((⟨R, T, k, k, t0⟩ : RLState).request_count ≥
        (⟨R, T, k, k, t0⟩ : RLState).requests_per_minute) ∨
        ((⟨R, T, k, k, t0⟩ : RLState).token_count + 1 >
          (⟨R, T, k, k, t0⟩ : RLState).tokens_per_minute)) := by
      show ¬ (k ≥ R ∨ k + 1 > T)
      simp only [List.length_cons] at hk
      omega
    have hacq : RLState.acquire 2 ⟨R, T, k, k, t0⟩ t 1 =
        some (⟨R, T, k + 1, k + 1, t0⟩, t, []) := by
      show acquireLoop 2 (resetIfNeeded ⟨R, T, k, k, t0⟩ t) t 1 = _
      rw [hnores, show (2 : ℕ) = 1 + 1 from rfl,
          acquireLoop_exit 1 _ _ 1 hguard]
    rw [List.map_cons, acquireAll_cons, hacq]
    dsimp only
    have hrec := ih (k + 1) (by simp only [List.length_cons] at hk; omega)
      (fun x hx => hts x (List.mem_cons_of_mem t hx))
    rw [hrec]
    have harith : k + 1 + ts.length = k + (ts.length + 1) := by omega
    simp [List.replicate_succ, List.length_cons, harith]

/-- C3: for a limiter configured with `R ≥ 1` requests per minute (and a
token budget that `R` unit-cost calls do not exhaust, `R ≤ T`), `R`
successive `acquire` calls with cost 1 inside one 60-second window all
return without sleeping, leaving both counters at `R`; the `(R+1)`-th call
in the same window sleeps exactly once — for the remainder of the window
plus the 0.1-second buffer, waking at `t0 + 60 + 0.1` — then succeeds after
the window reset, and the counters afterwards read `1` request and `1`
token: only the post-reset acquisition. -/
theorem rate_limiter_R_calls_then_block (R T : ℕ) (t0 u : ℚ) (ts : List ℚ)
    (hR : 1 ≤ R) (hT : R ≤ T) (hlen : ts.length = R)
    (hts : ∀ t ∈ ts, t0 ≤ t ∧ t - t0 < 60)
    (hu0 : t0 ≤ u) (hu : u - t0 < 60) :
    RLState.acquireAll 2 ⟨R, T, 0, 0, t0⟩ (ts.map (fun t => (t, 1))) =
      some (⟨R, T, R, R, t0⟩, List.replicate R []) ∧
    RLState.acquire 2 ⟨R, T, R, R, t0⟩ u 1 =
      some (⟨R, T, 1, 1, u + (60 - (u - t0) + 1 / 10)⟩,
            u + (60 - (u - t0) + 1 / 10), [60 - (u - t0) + 1 / 10]) ∧
    u + (60 - (u - t0) + 1 / 10) = t0 + 60 + 1 / 10 := by
  refine ⟨?_, ?_, by ring⟩
  · have h := acquireAll_cost1_in_window R T t0 hR hT ts 0 (by omega) hts
    rw [hlen] at h
    simpa using h
  · have hnores : resetIfNeeded ⟨R, T, R, R, t0⟩ u = ⟨R, T, R, R, t0⟩ :=
      resetIfNeeded_of_lt _ _ (by show ¬ u - t0 ≥ 60; linarith)
    have hguard : ((⟨R, T, R, R, t0⟩ : RLState).request_count ≥
        (⟨R, T, R, R, t0⟩ : RLState).requests_per_minute) ∨
        ((⟨R, T, R, R, t0⟩ : RLState).token_count + 1 >
          (⟨R, T, R, R, t0⟩ : RLState).tokens_per_minute) :=
      Or.inl le_rfl
    have hmax : max 0 (60 - (u - t0)) = 60 - (u - t0) :=
      max_eq_right (by linarith)
    have hcross := sleep_crosses_window ⟨R, T, R, R, t0⟩ u
    have hguard2 : ¬ ((0 : ℕ) ≥ R ∨ (0 : ℕ) + 1 > T) := by omega
    show acquireLoop 2 (resetIfNeeded ⟨R, T, R, R, t0⟩ u) u 1 = _
    rw [hnores, show (2 : ℕ) = 1 + 1 from rfl,
        acquireLoop_sleep 1 _ _ 1 hguard,
        resetIfNeeded_of_ge _ _ hcross,
        acquireLoop_exit 0 _ _ 1 hguard2]
    simp only [Option.map_some]
    rw [hmax]
    norm_num

/-- Witness for C3 at `R = 2`, `T = 10`, a window opening at `t0 = 0`, calls
at times 0 and 30, and a third call at time 59. -/
theorem rate_limiter_witness :
    RLState.acquireAll 2 ⟨2, 10, 0, 0, (0 : ℚ)⟩
        ([(0 : ℚ), 30].map (fun t => (t, 1))) =
      some (⟨2, 10, 2, 2, 0⟩, List.replicate 2 []) ∧
    RLState.acquire 2 ⟨2, 10, 2, 2, (0 : ℚ)⟩ 59 1 =
      some (⟨2, 10, 1, 1, 59 + (60 - (59 - 0) + 1 / 10)⟩,
            59 + (60 - (59 - 0) + 1 / 10), [60 - (59 - 0) + 1 / 10]) ∧
    (59 : ℚ) + (60 - (59 - 0) + 1 / 10) = 0 + 60 + 1 / 10 := by
  refine rate_limiter_R_calls_then_block 2 10 0 59 [0, 30] (by norm_num)
    (by norm_num) rfl ?_ (by norm_num) (by norm_num)
  intro t ht
  rcases List.mem_cons.mp ht with rfl | h2
  · exact ⟨by norm_num, by norm_num⟩
  · rcases List.mem_singleton.mp h2 with rfl
    exact ⟨by norm_num, by norm_num⟩

theorem markComment_of_embedded (hashF : String → String) (cache : EmbCache)
    (c : Comment) (h : c.embedding ≠ none) :
    markComment hashF cache false c = .ready c := by
  rw [markComment, if_neg]
  intro hc
  rcases hc with hc | hc
  · exact Bool.false_ne_true hc
  · exact h hc

theorem markComment_ready_embedded (hashF : String → String) (cache : EmbCache)
    (c0 c : Comment) (h : markComment hashF cache false c0 = .ready c) :
    c.embedding ≠ none := by
  rw [markComment] at h
  by_cases h0 : c0.embedding = none
  · rw [if_pos (Or.inr h0)] at h
    cases hcg : cacheGet cache (hashF c0.cleaned_content) with
    | some v =>
      rw [hcg] at h
      dsimp only at h
      by_cases hv : v.isEmpty = false ∧ (false : Bool) = false
      · rw [if_pos hv] at h
        injection h with h2
        rw [← h2]
        simp
      · rw [if_neg hv] at h
        exact Mark.noConfusion h
    | none =>
      rw [hcg] at h
      exact Mark.noConfusion h
  · have hcond : ¬ ((false : Bool) = true ∨ c0.embedding = none) := by
      intro hc
      rcases hc with hc | hc
      · exact Bool.false_ne_true hc
      · exact h0 hc
    rw [if_neg hcond] at h
    injection h with h2
    rw [← h2]
    exact h0

theorem mergeMarks_ready_map (comments : List Comment) :
    mergeMarks (comments.map Mark.ready) [] = comments := by
  induction comments with
  | nil => rfl
  | cons c cs ih => simp [mergeMarks, ih]

theorem embed_comments_noop_when_embedded
    (oracle : List String → Except Unit (List (List ℚ)))
    (hashF : String → String) (ebs : ℤ) (cache : EmbCache)
    (comments : List Comment) (h : ∀ c ∈ comments, c.embedding ≠ none) :
    embed_comments oracle hashF ebs cache comments false =
      .ok ⟨comments, cache, 0⟩ := by
  have hmarks : comments.map (markComment hashF cache false) =
      comments.map Mark.ready :=
    List.map_congr_left (fun c hc => markComment_of_embedded hashF cache c (h c hc))
  have hte : (comments.map Mark.ready).filterMap Mark.needsComment = [] := by
    induction comments with
    | nil => rfl
    | cons c cs ih => simpa [Mark.needsComment] using ih
  simp only [embed_comments, hmarks, hte]
  simp [mergeMarks_ready_map]

theorem mergeMarks_all (P : Comment → Prop) :
    ∀ (marks : List Mark) (es : List Comment),
      (marks.filterMap Mark.needsComment).length ≤ es.length →
      (∀ c, Mark.ready c ∈ marks → P c) →
      (∀ e ∈ es, P e) →
      ∀ x ∈ mergeMarks marks es, P x := by
  intro marks
  induction marks with
  | nil =>
    intro es _ _ _ x hx
    simp [mergeMarks] at hx
  | cons m ms ih =>
    intro es hlen hready hes x hx
    cases m with
    | ready c =>
      rw [mergeMarks] at hx
      rcases List.mem_cons.mp hx with rfl | hx2
      · exact hready x (List.mem_cons_self _ _)
      · refine ih es ?_ (fun c2 h2 => hready c2 (List.mem_cons_of_mem _ h2)) hes x hx2
        simpa [Mark.needsComment] using hlen
    | needs c =>
      cases es with
      | nil =>
        simp [Mark.needsComment] at hlen
      | cons e es2 =>
        rw [mergeMarks] at hx
        rcases List.mem_cons.mp hx with rfl | hx2
        · exact hes x (List.mem_cons_self _ _)
        · refine ih es2 ?_ (fun c2 h2 => hready c2 (List.mem_cons_of_mem _ h2))
            (fun e2 h2 => hes e2 (List.mem_cons_of_mem _ h2)) x hx2
          simp only [List.filterMap_cons, Mark.needsComment, List.length_cons] at hlen ⊢
          omega

theorem embedBatches_success
    (oracle : List String → Except Unit (List (List ℚ)))
    (hashF : String → String)
    (horacle : ∀ texts, ∃ vs, oracle texts = .ok vs ∧ vs.length = texts.length) :
    ∀ (batches : List (List Comment)) (cache : EmbCache),
      (embedBatches oracle hashF batches cache).1.length = batches.flatten.length ∧
      ∀ c ∈ (embedBatches oracle hashF batches cache).1, c.embedding ≠ none := by
  intro batches
  induction batches with
  | nil =>
    intro cache
    exact ⟨rfl, by intro c hc; simp [embedBatches] at hc⟩
  | cons b bs ih =>
    intro cache
    obtain ⟨vs, hvs, hlen⟩ := horacle (b.map (fun c => c.cleaned_content))
    have hlen2 : vs.length = b.length := by simpa using hlen
    have hdrop : b.drop vs.length = [] := by
      rw [hlen2]
      exact List.drop_length b
    constructor
    · simp only [embedBatches, hvs]
      obtain ⟨ihlen, _⟩ := ih ((b.zip vs).foldl
        (fun acc p => cacheSet acc (hashF p.1.cleaned_content) p.2) cache)
      simp [hdrop, ihlen, List.length_zip, hlen2]
    · intro c hc
      simp only [embedBatches, hvs] at hc
      rcases List.mem_append.mp hc with hc1 | hc2
      · rcases List.mem_append.mp hc1 with hc3 | hc4
        · rcases List.mem_map.mp hc3 with ⟨p, _, rfl⟩
          simp
        · rw [hdrop] at hc4
          simp at hc4
      · exact (ih _).2 c hc2

/-- C5 (amended): when the first `embed_comments` invocation's encoder calls
all succeed with one vector per text, every returned comment carries a
vector, so a second invocation on the unchanged result with
`force_refresh=False` marks nothing for encoding, returns before batching,
and issues zero external encoder calls — against any encoder oracle.
(The claim's extension to first runs with failed batches is refuted by the
counterexample: failed batches leave comments vector-less and uncached, so
the second call re-issues encoder calls for them.) -/
theorem embed_twice_zero_calls_after_success
    (oracle1 oracle2 : List String → Except Unit (List (List ℚ)))
    (hashF : String → String) (ebs : ℤ) (cache : EmbCache)
    (comments : List Comment) (out : EmbedOutcome)
    (horacle : ∀ texts, ∃ vs, oracle1 texts = .ok vs ∧ vs.length = texts.length)
    (hrun : embed_comments oracle1 hashF ebs cache comments false = .ok out) :
    embed_comments oracle2 hashF ebs out.cache out.comments false =
      .ok ⟨out.comments, out.cache, 0⟩ := by
  refine embed_comments_noop_when_embedded oracle2 hashF ebs out.cache
    out.comments ?_
  simp only [embed_comments] at hrun
  set marks := comments.map (markComment hashF cache false) with hmarks
  set toEmbed := marks.filterMap Mark.needsComment with hte
  have hready : ∀ c, Mark.ready c ∈ marks → c.embedding ≠ none := by
    intro c hc
    rw [hmarks] at hc
    rcases List.mem_map.mp hc with ⟨c0, _, hc0⟩
    exact markComment_ready_embedded hashF cache c0 c hc0
  by_cases hempty : toEmbed.isEmpty
  · rw [if_pos hempty] at hrun
    injection hrun with hout
    rw [← hout]
    intro x hx
    refine mergeMarks_all (fun c => c.embedding ≠ none) marks [] ?_ hready
      (by intro e he; simp at he) x hx
    have h0 : toEmbed = [] := List.isEmpty_iff.mp hempty
    rw [← hte, h0]
  · rw [if_neg hempty] at hrun
    by_cases hbs : ebs ≤ 0
    · rw [batch_list, if_pos hbs] at hrun
      exact Except.noConfusion hrun
    · rw [batch_list, if_neg hbs] at hrun
      dsimp only [Except.map] at hrun
      injection hrun with hout
      rw [← hout]
      intro x hx
      have hone : 1 ≤ ebs.toNat := by omega
      have hflat := chunks_flatten ebs.toNat hone toEmbed
      obtain ⟨hblen, hbemb⟩ := embedBatches_success oracle1 hashF horacle
        (chunks ebs.toNat toEmbed) cache
      refine mergeMarks_all (fun c => c.embedding ≠ none) marks _ ?_ hready
        hbemb x hx
      rw [hblen, hflat]

/-- Counterexample for C5: with an encoder that fails on the (only) batch,
the first `embed_comments` invocation leaves the comment vector-less and
uncached while issuing one external call; the second invocation — the same
call on the returned comment list and cache — again issues one external
call, not zero, refuting the claim for lists whose first invocation had
encoder failures. -/
theorem embed_twice_calls_again_after_failure :
    embed_comments c5oracleFail c5hash 100 [] [c5comment] false =
      .ok ⟨[c5comment], [], 1⟩ ∧ (1 : ℕ) ≠ 0 := by
  constructor
  · rfl
  · decide

theorem patternFold_remaining (videoIds : List String) :
    ∀ (orphans : List Comment) (acc : List Video × List Comment × List (String × ℕ)),
      (orphans.foldl (patternFoldStep videoIds) acc).2.1 =
        acc.2.1 ++ orphans.filter (fun c => (patternStep videoIds c).isNone) := by
  intro orphans
  induction orphans with
  | nil => intro acc; simp
  | cons c cs ih =>
    intro acc
    rw [List.foldl_cons]
    cases h : patternStep videoIds c with
    | some p =>
      rw [List.filter_cons_of_neg (by simp [h])]
      rw [ih]
      simp [patternFoldStep, h]
    | none =>
      rw [List.filter_cons_of_pos (by simp [h])]
      rw [ih]
      simp [patternFoldStep, h]

theorem match_by_pattern_spec (R : Reassigner) (orphans : List Comment)
    (videos : List Video) :
    (match_by_pattern R orphans videos).1.2.1 =
      orphans.filter
        (fun c => (patternStep (videos.map (fun v => v.id)) c).isNone) ∧
    (match_by_pattern R orphans videos).2 =
      { R with stats := { R.stats with recovered_by_pattern :=
          orphans.length - (match_by_pattern R orphans videos).1.2.1.length } } := by
  constructor
  · show (orphans.foldl (patternFoldStep (videos.map (fun v => v.id)))
      (videos, [], videos.map (fun v => (v.id, 0)))).2.1 = _
    rw [patternFold_remaining]
    rfl
  · rfl

theorem simFold_remaining (sq : ℚ → ℚ) (thr : ℚ)
    (ves : List (Video × List (List ℚ))) :
    ∀ (cs : List Comment)
      (acc out : List Video × List Comment × List (String × List (Comment × ℚ))),
      exceptFoldlM (simFoldStep sq thr ves) acc cs = .ok out →
      out.2.1 = acc.2.1 ++
        cs.filter (fun c => decide (simStep sq thr ves c = Except.ok none)) := by
  intro cs
  induction cs with
  | nil =>
    intro acc out h
    injection h with h2
    simp [← h2]
  | cons c cs2 ih =>
    intro acc out h
    rw [exceptFoldlM] at h
    rw [show simFoldStep sq thr ves acc c = Except.bind (simStep sq thr ves c)
        (fun r => match r with
          | some vs =>
            pure (addToVideo acc.1 vs.1.id
                { c with reassigned := some tagSemantic,
                         similarity_score := some vs.2,
                         original_parent_id := some c.parent_id }, acc.2.1,
              appendAssign acc.2.2 vs.1.id
                { c with reassigned := some tagSemantic,
                         similarity_score := some vs.2,
                         original_parent_id := some c.parent_id } vs.2)
          | none => pure (acc.1, acc.2.1 ++ [c], acc.2.2)) from rfl] at h
    cases hs : simStep sq thr ves c with
    | error e =>
      rw [hs] at h
      dsimp only [Except.bind] at h
      exact Except.noConfusion h
    | ok r =>
      rw [hs] at h
      cases r with
      | some vs =>
        dsimp only [Except.bind, pure, Except.pure] at h
        rw [List.filter_cons_of_neg (by simp [hs])]
        have h3 := ih _ out h
        rw [h3]
      | none =>
        dsimp only [Except.bind, pure, Except.pure] at h
        rw [List.filter_cons_of_pos (by simp [hs])]
        rw [ih _ out h]
        simp

theorem match_by_similarity_spec (R : Reassigner) (sq : ℚ → ℚ)
    (embedF : Comment → Comment) (orphans : List Comment) (videos : List Video)
    (out : (List Video × List Comment × List (String × List (Comment × ℚ))) × Reassigner)
    (hE : R.hasEmbedder = true) (hne : orphans.isEmpty = false)
    (h : match_by_similarity R sq embedF orphans videos = .ok out) :
    out.1.2.1 = (orphans.map embedF).filter
      (fun c => decide (simStep sq R.similarity_threshold
        (videoEmbeddings videos) c = Except.ok none)) ∧
    out.2 = { R with stats := { R.stats with recovered_by_similarity :=
        orphans.length - out.1.2.1.length } } := by
  rw [match_by_similarity] at h
  rw [if_neg (by rw [hE]; exact fun hc => Bool.noConfusion hc)] at h
  rw [if_neg (by rw [hne]; exact fun hc => Bool.noConfusion hc)] at h
  dsimp only at h
  cases hf : exceptFoldlM
      (simFoldStep sq R.similarity_threshold (videoEmbeddings videos))
      (videos, [], videos.map (fun v => (v.id, [])))
      (orphans.map embedF) with
  | error e =>
    rw [hf] at h
    exact Except.noConfusion h
  | ok result =>
    have hrem := simFold_remaining sq R.similarity_threshold
      (videoEmbeddings videos) (orphans.map embedF) _ _ hf
    rw [hf] at h
    injection h with h2
    rw [← h2]
    simp only [List.nil_append] at hrem
    refine ⟨hrem, ?_⟩
    simp [List.length_map]

theorem create_unassigned_group_stats (R : Reassigner) (cs : List Comment)
    (hne : cs.isEmpty = false) :
    (create_unassigned_group R cs).2.stats =
      { R.stats with unassigned := cs.length } := by
  rw [create_unassigned_group]
  rw [if_neg (by rw [hne]; exact fun hc => Bool.noConfusion hc)]
  by_cases hcv : R.create_unassigned_video = false
  · rw [if_pos hcv]
  · rw [if_neg hcv]

/-- C1 (amended): on a freshly initialised instance (all statistics fields
zero, as `__init__` leaves them), every `reassign_comments` call that
returns satisfies `total_orphaned = recovered_by_pattern +
recovered_by_similarity + unassigned`.  (The claim's extension to instances
that have already run is refuted by the counterexample: a pass that does not
run on the second call leaves its statistics field stale from the first.) -/
theorem reassign_stats_invariant_fresh (R0 : Reassigner) (sq : ℚ → ℚ)
    (embedF : Comment → Comment) (videos : List Video) (orphaned : List Comment)
    (vout : List Video) (Rout : Reassigner)
    (hfresh : R0.stats = {})
    (hrun : reassign_comments R0 sq embedF videos orphaned = .ok (vout, Rout)) :
    Rout.stats.total_orphaned =
      Rout.stats.recovered_by_pattern + Rout.stats.recovered_by_similarity +
        Rout.stats.unassigned := by
  rw [reassign_comments] at hrun
  by_cases ho : orphaned.isEmpty
  · rw [if_pos ho] at hrun
    have hp := Except.ok.inj hrun
    have hR : Rout =
        { R0 with stats := { R0.stats with total_orphaned := orphaned.length } } :=
      (congrArg Prod.snd hp).symm
    have hlen0 : orphaned.length = 0 := by
      rw [List.isEmpty_iff.mp ho]
      rfl
    rw [hR, hfresh, hlen0]
    rfl
  · rw [if_neg ho] at hrun
    dsimp only at hrun
    set R : Reassigner :=
      { R0 with stats := { R0.stats with total_orphaned := orphaned.length } }
      with hRdef
    set MP := match_by_pattern R orphaned videos with hMP
    obtain ⟨hrem1, hR1⟩ := match_by_pattern_spec R orphaned videos
    rw [← hMP] at hrem1 hR1
    have hlen1 : MP.1.2.1.length ≤ orphaned.length := by
      rw [hrem1]
      exact List.length_filter_le _ _
    by_cases hcond : MP.2.hasEmbedder = true ∧ ¬ MP.1.2.1.isEmpty
    · rw [if_pos hcond] at hrun
      cases hms : match_by_similarity MP.2 sq embedF MP.1.2.1 MP.1.1 with
      | error e =>
        rw [hms] at hrun
        exact Except.noConfusion hrun
      | ok p2 =>
        rw [hms] at hrun
        simp only [Except.instMonad, Except.bind, Bind.bind] at hrun
        have hne2 : MP.1.2.1.isEmpty = false := by
          cases hie : MP.1.2.1.isEmpty with
          | false => rfl
          | true => exact absurd hie hcond.2
        obtain ⟨hrem2, hR2⟩ := match_by_similarity_spec MP.2 sq embedF
          MP.1.2.1 MP.1.1 p2 hcond.1 hne2 hms
        have hlen2 : p2.1.2.1.length ≤ MP.1.2.1.length := by
          rw [hrem2]
          calc ((MP.1.2.1.map embedF).filter _).length
              ≤ (MP.1.2.1.map embedF).length := List.length_filter_le _ _
            _ = MP.1.2.1.length := List.length_map _ _
        by_cases hr2e : p2.1.2.1.isEmpty
        · rw [if_neg (fun hc => hc hr2e)] at hrun
          have hp := Except.ok.inj hrun
          have hRout : Rout = { p2.2 with stats := { p2.2.stats with
              recovery_rate := if 0 < p2.2.stats.total_orphaned then
                ((p2.2.stats.recovered_by_pattern +
                  p2.2.stats.recovered_by_similarity : ℕ) : ℚ) /
                  (p2.2.stats.total_orphaned : ℚ) else 0 } } :=
            (congrArg Prod.snd hp).symm
          have hl2z : p2.1.2.1.length = 0 := by
            rw [List.isEmpty_iff.mp hr2e]
            rfl
          rw [hRout, hR2, hR1, hRdef, hfresh]
          show orphaned.length = orphaned.length - MP.1.2.1.length +
            (MP.1.2.1.length - p2.1.2.1.length) + 0
          omega
        · have hr2f : p2.1.2.1.isEmpty = false := by
            cases hie : p2.1.2.1.isEmpty with
            | false => rfl
            | true => exact absurd hie hr2e
          rw [if_pos (fun hc => by rw [hc] at hr2f; exact Bool.noConfusion hr2f)]
            at hrun
          have hp := Except.ok.inj hrun
          rw [Prod.mk.injEq] at hp
          rw [← hp.2]
          have hcu := create_unassigned_group_stats p2.2 p2.1.2.1 hr2f
          show (create_unassigned_group p2.2 p2.1.2.1).2.stats.total_orphaned =
            (create_unassigned_group p2.2 p2.1.2.1).2.stats.recovered_by_pattern +
            (create_unassigned_group p2.2 p2.1.2.1).2.stats.recovered_by_similarity +
            (create_unassigned_group p2.2 p2.1.2.1).2.stats.unassigned
          rw [hcu, hR2, hR1, hRdef, hfresh]
          show orphaned.length = orphaned.length - MP.1.2.1.length +
            (MP.1.2.1.length - p2.1.2.1.length) + p2.1.2.1.length
          omega
    · rw [if_neg hcond] at hrun
      simp only [Except.instMonad, Except.bind, Bind.bind] at hrun
      by_cases hr2e : MP.1.2.1.isEmpty
      · rw [if_neg (fun hc => hc hr2e)] at hrun
        have hp := Except.ok.inj hrun
        rw [Prod.mk.injEq] at hp
        rw [← hp.2]
        have hl1z : MP.1.2.1.length = 0 := by
          rw [List.isEmpty_iff.mp hr2e]
          rfl
        show MP.2.stats.total_orphaned = MP.2.stats.recovered_by_pattern +
          MP.2.stats.recovered_by_similarity + MP.2.stats.unassigned
        rw [hR1, hRdef, hfresh]
        show orphaned.length = orphaned.length - MP.1.2.1.length + 0 + 0
        omega
      · have hr2f : MP.1.2.1.isEmpty = false := by
          cases hie : MP.1.2.1.isEmpty with
          | false => rfl
          | true => exact absurd hie hr2e
        rw [if_pos (fun hc => by rw [hc] at hr2f; exact Bool.noConfusion hr2f)]
          at hrun
        have hp := Except.ok.inj hrun
        rw [Prod.mk.injEq] at hp
        rw [← hp.2]
        have hcu := create_unassigned_group_stats MP.2 MP.1.2.1 hr2f
        show (create_unassigned_group MP.2 MP.1.2.1).2.stats.total_orphaned =
          (create_unassigned_group MP.2 MP.1.2.1).2.stats.recovered_by_pattern +
          (create_unassigned_group MP.2 MP.1.2.1).2.stats.recovered_by_similarity +
          (create_unassigned_group MP.2 MP.1.2.1).2.stats.unassigned
        rw [hcu, hR1, hRdef, hfresh]
        show orphaned.length = orphaned.length - MP.1.2.1.length + 0 +
          MP.1.2.1.length
        omega

/-- Witness for C1 on a freshly initialised reassigner, one orphan with an
unresolvable parent id and no videos: the orphan lands in the unassigned
bucket and the statistics balance. -/
theorem reassign_stats_invariant_witness :
    c1r0.stats = ({} : RStats) ∧
    c1R1.stats.total_orphaned =
      c1R1.stats.recovered_by_pattern + c1R1.stats.recovered_by_similarity +
        c1R1.stats.unassigned :=
  ⟨rfl, reassign_stats_invariant_fresh c1r0 id id [] [c1orphan1]
    c1run1Videos c1R1 rfl rfl⟩

/-- Counterexample for C1 on an instance that has already run: the first
call leaves `unassigned = 1`; the second call pattern-matches its only
orphan, so pass 3 never runs and the stale `unassigned = 1` survives, giving
`total_orphaned = 1` but `recovered_by_pattern + recovered_by_similarity +
unassigned = 2`. -/
theorem reassign_stats_invariant_fails_on_reuse :
    c1run1.toOption.isSome = true ∧
    c1run2.toOption.isSome = true ∧
    c1R2.stats.total_orphaned = 1 ∧
    c1R2.stats.recovered_by_pattern = 1 ∧
    c1R2.stats.recovered_by_similarity = 0 ∧
    c1R2.stats.unassigned = 1 ∧
    c1R2.stats.total_orphaned ≠
      c1R2.stats.recovered_by_pattern + c1R2.stats.recovered_by_similarity +
        c1R2.stats.unassigned := by
  refine ⟨by decide, by decide, by decide, by decide, by decide, by decide, by decide⟩

/-- Witness for C5: after a fully successful first embedding run on one
uncached comment, a second run on its output issues zero encoder calls even
against an encoder that would fail. -/
theorem embed_twice_zero_calls_witness :
    embed_comments c5oracleFail c5hash 100 c5out.cache c5out.comments false =
      .ok ⟨c5out.comments, c5out.cache, 0⟩ :=
  embed_twice_zero_calls_after_success c5oracleOk c5oracleFail c5hash 100 []
    [c5comment] c5out
    (fun texts => ⟨texts.map (fun _ => [1]), rfl, by simp⟩) rfl

/-- C7: for every orphan the pass-1 rules are evaluated in fixed priority
order with the first match winning: case-insensitive exact equality of the
parent id with a group id tags `pattern_exact`; only otherwise does
substring containment in either direction tag `pattern_substring`; only
otherwise does a URL-shaped parent id whose extracted embedded-id token is a
group id tag `pattern_url` — so an orphan matched by an earlier rule is
never tagged by a later one — and orphans matching no rule are exactly the
ones passed through to pass 2. -/
theorem pattern_rules_priority (videoIds : List String) (c : Comment) :
    ((∃ vid ∈ videoIds, lowerList vid = lowerList c.parent_id) →
      ∃ vid, patternStep videoIds c = some (vid, tagPatternExact)) ∧
    (¬ (∃ vid ∈ videoIds, lowerList vid = lowerList c.parent_id) →
      (∃ vid ∈ videoIds, (containsStr c.parent_id.toList vid.toList ||
        containsStr vid.toList c.parent_id.toList) = true) →
      ∃ vid, patternStep videoIds c = some (vid, tagPatternSubstring)) ∧
    (¬ (∃ vid ∈ videoIds, lowerList vid = lowerList c.parent_id) →
      ¬ (∃ vid ∈ videoIds, (containsStr c.parent_id.toList vid.toList ||
        containsStr vid.toList c.parent_id.toList) = true) →
      (containsStr c.parent_id.toList watchMarker.toList ||
        containsStr c.parent_id.toList youtuMarker.toList) = true →
      ∀ eid, extract_video_id_from_url c.parent_id = some eid →
        videoIds.contains eid = true →
        patternStep videoIds c = some (eid, tagPatternUrl)) ∧
    (¬ (∃ vid ∈ videoIds, lowerList vid = lowerList c.parent_id) →
      ¬ (∃ vid ∈ videoIds, (containsStr c.parent_id.toList vid.toList ||
        containsStr vid.toList c.parent_id.toList) = true) →
      ¬ ((containsStr c.parent_id.toList watchMarker.toList ||
          containsStr c.parent_id.toList youtuMarker.toList) = true ∧
        ∃ eid, extract_video_id_from_url c.parent_id = some eid ∧
          videoIds.contains eid = true) →
      patternStep videoIds c = none) ∧
    (∀ (R : Reassigner) (orphans : List Comment) (videos : List Video),
      (match_by_pattern R orphans videos).1.2.1 =
        orphans.filter
          (fun c2 => (patternStep (videos.map (fun v => v.id)) c2).isNone)) := by
  have hfind1 : ∀ (h : ¬ ∃ vid ∈ videoIds, lowerList vid = lowerList c.parent_id),
      videoIds.find? (fun vid => lowerList vid == lowerList c.parent_id) = none := by
    intro h
    rw [List.find?_eq_none]
    intro x hx hpx
    exact h ⟨x, hx, beq_iff_eq.mp hpx⟩
  have hfind2 : ∀ (h : ¬ ∃ vid ∈ videoIds,
        (containsStr c.parent_id.toList vid.toList ||
          containsStr vid.toList c.parent_id.toList) = true),
      videoIds.find? (fun vid => containsStr c.parent_id.toList vid.toList ||
        containsStr vid.toList c.parent_id.toList) = none := by
    intro h
    rw [List.find?_eq_none]
    intro x hx hpx
    exact h ⟨x, hx, hpx⟩
  refine ⟨?_, ?_, ?_, ?_, ?_⟩
  · rintro ⟨vid, hmem, heq⟩
    have hsome : (videoIds.find?
        (fun v2 => lowerList v2 == lowerList c.parent_id)).isSome := by
      rw [List.find?_isSome]
      exact ⟨vid, hmem, beq_iff_eq.mpr heq⟩
    obtain ⟨v2, hv2⟩ := Option.isSome_iff_exists.mp hsome
    exact ⟨v2, by rw [patternStep, hv2]⟩
  · intro hnE hS
    obtain ⟨vid, hmem, hpred⟩ := hS
    have hsome : (videoIds.find?
        (fun v2 => containsStr c.parent_id.toList v2.toList ||
          containsStr v2.toList c.parent_id.toList)).isSome := by
      rw [List.find?_isSome]
      exact ⟨vid, hmem, hpred⟩
    obtain ⟨v2, hv2⟩ := Option.isSome_iff_exists.mp hsome
    exact ⟨v2, by rw [patternStep, hfind1 hnE, hv2]⟩
  · intro hnE hnS hurl eid hx hcont
    rw [patternStep, hfind1 hnE, hfind2 hnS]
    dsimp only
    rw [if_pos hurl, hx]
    dsimp only
    rw [if_pos hcont]
  · intro hnE hnS hnU
    rw [patternStep, hfind1 hnE, hfind2 hnS]
    dsimp only
    by_cases hurl : (containsStr c.parent_id.toList watchMarker.toList ||
        containsStr c.parent_id.toList youtuMarker.toList) = true
    · rw [if_pos hurl]
      cases hx : extract_video_id_from_url c.parent_id with
      | some eid =>
        dsimp only
        by_cases hcont : videoIds.contains eid = true
        · exact absurd ⟨hurl, eid, hx, hcont⟩ hnU
        · rw [if_neg hcont]
      | none => rfl
    · rw [if_neg hurl]
  · intro R orphans videos
    exact (match_by_pattern_spec R orphans videos).1

/-- Witness for C7 on concrete ids: parent id "a" matches group "A"
case-insensitively and is tagged `pattern_exact`. -/
theorem pattern_rules_priority_witness :
    (∃ vid ∈ ["A", "B"], lowerList vid = lowerList
      ({ id := "o1", parent_id := "a" } : Comment).parent_id) ∧
    ∃ vid, patternStep ["A", "B"] { id := "o1", parent_id := "a" } =
      some (vid, tagPatternExact) :=
  ⟨⟨"A", by decide, by decide⟩,
   (pattern_rules_priority ["A", "B"] { id := "o1", parent_id := "a" }).1
     ⟨"A", by decide, by decide⟩⟩

theorem bestFold_const (l : List (Video × ℚ)) :
    ∀ (bv : Option Video) (bs : ℚ), (∀ q ∈ l, q.2 ≤ bs) →
      l.foldl (fun best q => if q.2 > best.2 then (some q.1, q.2) else best)
        (bv, bs) = (bv, bs) := by
  induction l with
  | nil => intro bv bs _; rfl
  | cons q l ih =>
    intro bv bs h
    rw [List.foldl_cons]
    have hq : ¬ q.2 > (bv, bs).2 :=
      not_lt_of_ge (h q (List.mem_cons_self q l))
    rw [if_neg hq]
    exact ih bv bs (fun p hp => h p (List.mem_cons_of_mem q hp))

theorem bestFold_snd (l : List (Video × ℚ)) :
    ∀ (bv : Option Video) (bs : ℚ),
      (l.foldl (fun best q => if q.2 > best.2 then (some q.1, q.2) else best)
        (bv, bs)).2 = l.foldl (fun a q => max a q.2) bs := by
  induction l with
  | nil => intro bv bs; rfl
  | cons q l ih =>
    intro bv bs
    rw [List.foldl_cons, List.foldl_cons]
    by_cases hq : q.2 > (bv, bs).2
    · rw [if_pos hq]
      rw [ih]
      have : max bs q.2 = q.2 := max_eq_right (le_of_lt hq)
      rw [this]
    · rw [if_neg hq]
      rw [ih]
      have : max bs q.2 = bs := max_eq_left (not_lt.mp hq)
      rw [this]

theorem foldl_max_init_le (l : List ℚ) :
    ∀ (bs : ℚ), bs ≤ l.foldl (fun a q => max a q) bs := by
  induction l with
  | nil => intro bs; exact le_rfl
  | cons q l ih =>
    intro bs
    rw [List.foldl_cons]
    exact le_trans (le_max_left bs q) (ih (max bs q))

theorem foldl_max_pair_init_le (l : List (Video × ℚ)) :
    ∀ (bs : ℚ), bs ≤ l.foldl (fun a q => max a q.2) bs := by
  induction l with
  | nil => intro bs; exact le_rfl
  | cons q l ih =>
    intro bs
    rw [List.foldl_cons]
    exact le_trans (le_max_left bs q.2) (ih (max bs q.2))

theorem foldl_max_pair_mem_le (l : List (Video × ℚ)) :
    ∀ (bs : ℚ) (q : Video × ℚ), q ∈ l →
      q.2 ≤ l.foldl (fun a p => max a p.2) bs := by
  induction l with
  | nil => intro bs q hq; simp at hq
  | cons p l ih =>
    intro bs q hq
    rw [List.foldl_cons]
    rcases List.mem_cons.mp hq with rfl | hq2
    · exact le_trans (le_max_right bs q.2) (foldl_max_pair_init_le l (max bs q.2))
    · exact ih (max bs p.2) q hq2

theorem bestFold_eq_some_iff (v : Video) (m : ℚ) :
    ∀ (l : List (Video × ℚ)) (bv : Option Video) (bs : ℚ), bs < m →
      (l.foldl (fun best q => if q.2 > best.2 then (some q.1, q.2) else best)
        (bv, bs) = (some v, m) ↔
      ((∀ q ∈ l, q.2 ≤ m) ∧
        l.find? (fun q => decide (m ≤ q.2)) = some (v, m))) := by
  intro l
  induction l with
  | nil =>
    intro bv bs hbs
    constructor
    · intro h
      exact absurd (congrArg Prod.snd h) (ne_of_lt hbs)
    · rintro ⟨_, hfind⟩
      exact Option.noConfusion hfind
  | cons q l ih =>
    intro bv bs hbs
    rw [List.foldl_cons]
    by_cases hq : q.2 > (bv, bs).2
    · rw [if_pos hq]
      by_cases hqm : m ≤ q.2
      · rw [List.find?_cons_of_pos (p := fun q => decide (m ≤ q.2)) l
          (decide_eq_true hqm)]
        constructor
        · intro h
          have hsnd : (l.foldl (fun best p =>
              if p.2 > best.2 then (some p.1, p.2) else best)
              (some q.1, q.2)).2 = l.foldl (fun a p => max a p.2) q.2 :=
            bestFold_snd l (some q.1) q.2
          have hm : l.foldl (fun a p => max a p.2) q.2 = m := by
            rw [← hsnd, h]
          have hq2le : q.2 ≤ m := by
            rw [← hm]
            exact foldl_max_pair_init_le l q.2
          have hq2 : q.2 = m := le_antisymm hq2le hqm
          have hall : ∀ p ∈ l, p.2 ≤ m := by
            intro p hp
            rw [← hm]
            exact foldl_max_pair_mem_le l q.2 p hp
          have hconst := bestFold_const l (some q.1) q.2
            (fun p hp => by rw [hq2]; exact hall p hp)
          rw [hconst] at h
          have hv : q.1 = v := Option.some.inj (congrArg Prod.fst h)
          constructor
          · intro p hp
            rcases List.mem_cons.mp hp with rfl | hp2
            · exact hq2le
            · exact hall p hp2
          · rw [show q = (v, m) from Prod.ext hv hq2]
        · rintro ⟨hall, hfind⟩
          have hq2 : q = (v, m) := Option.some.inj hfind
          have hconst := bestFold_const l (some q.1) q.2
            (fun p hp => by
              rw [show q.2 = m from congrArg Prod.snd hq2]
              exact hall p (List.mem_cons_of_mem q hp))
          rw [hconst]
          rw [show q = (v, m) from hq2]
      · rw [List.find?_cons_of_neg (p := fun q => decide (m ≤ q.2)) l
          (fun hc => hqm (of_decide_eq_true hc))]
        have hq2m : q.2 < m := lt_of_not_ge hqm
        rw [ih (some q.1) q.2 hq2m]
        constructor
        · rintro ⟨hall, hfind⟩
          exact ⟨fun p hp => by
            rcases List.mem_cons.mp hp with rfl | hp2
            · exact le_of_lt hq2m
            · exact hall p hp2, hfind⟩
        · rintro ⟨hall, hfind⟩
          exact ⟨fun p hp => hall p (List.mem_cons_of_mem q hp), hfind⟩
    · rw [if_neg hq]
      have hq2m : q.2 < m := lt_of_le_of_lt (not_lt.mp hq) hbs
      rw [List.find?_cons_of_neg (p := fun q => decide (m ≤ q.2)) l
        (fun hc => (not_le.mpr hq2m) (of_decide_eq_true hc))]
      rw [ih bv bs hbs]
      constructor
      · rintro ⟨hall, hfind⟩
        exact ⟨fun p hp => by
          rcases List.mem_cons.mp hp with rfl | hp2
          · exact le_of_lt hq2m
          · exact hall p hp2, hfind⟩
      · rintro ⟨hall, hfind⟩
        exact ⟨fun p hp => hall p (List.mem_cons_of_mem q hp), hfind⟩

theorem bestMatch_foldlM_link (sq : ℚ → ℚ) (x : List ℚ) :
    ∀ (ves : List (Video × List (List ℚ))) (means : List ℚ),
      exceptMapM (fun p => meanSimilarity sq x p.2) ves = .ok means →
      ∀ (acc : Option Video × ℚ),
      exceptFoldlM (fun best p => do
          let avg ← meanSimilarity sq x p.2
          pure (if avg > best.2 then (some p.1, avg) else best)) acc ves =
        .ok (((ves.map (fun p => p.1)).zip means).foldl
          (fun best q => if q.2 > best.2 then (some q.1, q.2) else best) acc) := by
  intro ves
  induction ves with
  | nil =>
    intro means hmeans acc
    injection hmeans with h2
    rw [← h2]
    rfl
  | cons p ps ih =>
    intro means hmeans acc
    rw [exceptMapM] at hmeans
    cases hm : meanSimilarity sq x p.2 with
    | error e =>
      rw [hm] at hmeans
      exact Except.noConfusion hmeans
    | ok y =>
      rw [hm] at hmeans
      cases hrest : exceptMapM (fun p => meanSimilarity sq x p.2) ps with
      | error e =>
        rw [hrest] at hmeans
        exact Except.noConfusion hmeans
      | ok ys =>
        rw [hrest] at hmeans
        injection hmeans with h2
        rw [← h2]
        rw [exceptFoldlM]
        have hf : (do
            let avg ← meanSimilarity sq x p.2
            pure (if avg > acc.2 then (some p.1, avg) else acc) :
            Except String (Option Video × ℚ)) =
            .ok (if y > acc.2 then (some p.1, y) else acc) := by
          show Except.bind (meanSimilarity sq x p.2) _ = _
          rw [hm]
          rfl
        rw [hf]
        rw [List.map_cons, List.zip_cons_cons, List.foldl_cons]
        exact ih ys hrest _

theorem bestFold_some_pos (v : Video) :
    ∀ (l : List (Video × ℚ)) (bs : ℚ),
      (l.foldl (fun best q => if q.2 > best.2 then (some q.1, q.2) else best)
        ((none : Option Video), bs)).1 = some v →
      bs < (l.foldl (fun best q => if q.2 > best.2 then (some q.1, q.2) else best)
        ((none : Option Video), bs)).2 := by
  intro l
  induction l with
  | nil =>
    intro bs h
    exact absurd h (by simp)
  | cons q l ih =>
    intro bs h
    rw [List.foldl_cons] at h ⊢
    by_cases hq : q.2 > ((none : Option Video), bs).2
    · rw [if_pos hq] at h ⊢
      have hsnd := bestFold_snd l (some q.1) q.2
      rw [hsnd]
      exact lt_of_lt_of_le hq (foldl_max_pair_init_le l q.2)
    · rw [if_neg hq] at h ⊢
      exact ih bs h

theorem simStep_reduce (sq : ℚ → ℚ) (thr : ℚ)
    (ves : List (Video × List (List ℚ))) (c : Comment) (e : List ℚ)
    (means : List ℚ)
    (he : c.embedding = some e) (hne : e.isEmpty = false)
    (hmeans : exceptMapM (fun p => meanSimilarity sq e p.2) ves = .ok means) :
    simStep sq thr ves c = .ok
      (match (((ves.map (fun p => p.1)).zip means).foldl
          (fun best q => if q.2 > best.2 then (some q.1, q.2) else best)
          ((none : Option Video), (0 : ℚ))).1 with
       | some v =>
         if (((ves.map (fun p => p.1)).zip means).foldl
            (fun best q => if q.2 > best.2 then (some q.1, q.2) else best)
            ((none : Option Video), (0 : ℚ))).2 ≥ thr then
           some (v, (((ves.map (fun p => p.1)).zip means).foldl
            (fun best q => if q.2 > best.2 then (some q.1, q.2) else best)
            ((none : Option Video), (0 : ℚ))).2)
         else none
       | none => none) := by
  rw [simStep, he]
  dsimp only
  rw [if_neg (by rw [hne]; exact fun hc => Bool.noConfusion hc)]
  have hbm : bestMatch sq e ves = .ok (((ves.map (fun p => p.1)).zip means).foldl
      (fun best q => if q.2 > best.2 then (some q.1, q.2) else best)
      ((none : Option Video), (0 : ℚ))) := by
    rw [bestMatch]
    exact bestMatch_foldlM_link sq e ves means hmeans _
  show Except.bind (bestMatch sq e ves) _ = _
  rw [hbm]
  set bf := ((ves.map (fun p => p.1)).zip means).foldl
    (fun best q => if q.2 > best.2 then (some q.1, q.2) else best)
    ((none : Option Video), (0 : ℚ)) with hbf
  dsimp only [Except.bind]
  cases hbf1 : bf.1 with
  | some v =>
    dsimp only
    by_cases hth : bf.2 ≥ thr
    · rw [if_pos hth, if_pos hth]
      rfl
    · rw [if_neg hth, if_neg hth]
      rfl
  | none => rfl

/-- C6 (amended): in pass 2, for every surviving orphan with a (truthy)
vector, the per-group means are the arithmetic means of cosine similarities
against every embedded item of the group, and the orphan is assigned to the
group of the highest mean — ties between equally-best groups resolved in
favour of the first-encountered group — if and only if that highest mean is
at least the configured threshold AND strictly positive.  (The claim's
boundary cases fail on the code: `best_video` starts as `None` with
`best_score = 0.0` and is only replaced on a strict improvement, so a
non-positive best mean never assigns, even when it reaches the threshold;
see the counterexample.)  Unassigned orphans are exactly those passed
through to pass 3. -/
theorem similarity_best_mean_rule (sq : ℚ → ℚ) (thr : ℚ)
    (ves : List (Video × List (List ℚ))) (c : Comment) (e : List ℚ)
    (means : List ℚ)
    (he : c.embedding = some e) (hne : e.isEmpty = false)
    (hmeans : exceptMapM (fun p => meanSimilarity sq e p.2) ves = .ok means) :
    (∀ (v : Video) (m : ℚ),
      simStep sq thr ves c = .ok (some (v, m)) ↔
        (0 < m ∧ thr ≤ m ∧
          (∀ q ∈ (ves.map (fun p => p.1)).zip means, q.2 ≤ m) ∧
          ((ves.map (fun p => p.1)).zip means).find?
            (fun q => decide (m ≤ q.2)) = some (v, m))) ∧
    (simStep sq thr ves c = .ok none ↔
      ¬ ∃ v m, 0 < m ∧ thr ≤ m ∧
        (∀ q ∈ (ves.map (fun p => p.1)).zip means, q.2 ≤ m) ∧
        ((ves.map (fun p => p.1)).zip means).find?
          (fun q => decide (m ≤ q.2)) = some (v, m)) ∧
    (∀ (R : Reassigner) (embedF : Comment → Comment) (orphans : List Comment)
        (videos : List Video)
        (out : (List Video × List Comment × List (String × List (Comment × ℚ))) × Reassigner),
      R.hasEmbedder = true → orphans.isEmpty = false →
      match_by_similarity R sq embedF orphans videos = .ok out →
      out.1.2.1 = (orphans.map embedF).filter
        (fun c2 => decide (simStep sq R.similarity_threshold
          (videoEmbeddings videos) c2 = Except.ok none))) := by
  have hred := simStep_reduce sq thr ves c e means he hne hmeans
  set vms := (ves.map (fun p => p.1)).zip means with hvms
  set bf := vms.foldl
    (fun best q => if q.2 > best.2 then (some q.1, q.2) else best)
    ((none : Option Video), (0 : ℚ)) with hbfdef
  have hchar : ∀ (v : Video) (m : ℚ),
      simStep sq thr ves c = .ok (some (v, m)) ↔
        (0 < m ∧ thr ≤ m ∧ (∀ q ∈ vms, q.2 ≤ m) ∧
          vms.find? (fun q => decide (m ≤ q.2)) = some (v, m)) := by
    intro v m
    constructor
    · intro h
      rw [hred] at h
      injection h with h2
      cases hbf1 : bf.1 with
      | none =>
        rw [hbf1] at h2
        exact Option.noConfusion h2
      | some v0 =>
        rw [hbf1] at h2
        dsimp only at h2
        by_cases hth : bf.2 ≥ thr
        · rw [if_pos hth] at h2
          injection h2 with h3
          have hv0 : v0 = v := congrArg Prod.fst h3
          have hm : bf.2 = m := congrArg Prod.snd h3
          have hpos : (0 : ℚ) < m := by
            rw [← hm]
            exact bestFold_some_pos v0 vms 0 hbf1
          have hbfeq : bf = (some v, m) := by
            rw [Prod.ext_iff]
            exact ⟨by rw [hbf1, hv0], hm⟩
          have := (bestFold_eq_some_iff v m vms none 0 hpos).mp
            (by rw [← hbfdef]; exact hbfeq)
          exact ⟨hpos, by rw [← hm]; exact hth, this.1, this.2⟩
        · rw [if_neg hth] at h2
          exact Option.noConfusion h2
    · rintro ⟨hpos, hth, hall, hfind⟩
      have hbfeq : bf = (some v, m) := by
        rw [hbfdef]
        exact (bestFold_eq_some_iff v m vms none 0 hpos).mpr ⟨hall, hfind⟩
      rw [hred]
      rw [show bf.1 = some v from by rw [hbfeq]]
      dsimp only
      rw [if_pos (by rw [show bf.2 = m from by rw [hbfeq]]; exact hth)]
      rw [show bf.2 = m from by rw [hbfeq]]
  refine ⟨hchar, ?_, ?_⟩
  · constructor
    · intro h hex
      obtain ⟨v, m, hcond⟩ := hex
      have := (hchar v m).mpr hcond
      rw [h] at this
      injection this with h2
      exact Option.noConfusion h2
    · intro hnex
      rw [hred]
      cases hbf1 : bf.1 with
      | none => rfl
      | some v0 =>
        dsimp only
        by_cases hth : bf.2 ≥ thr
        · exfalso
          refine hnex ⟨v0, bf.2, ?_⟩
          have hstep : simStep sq thr ves c = .ok (some (v0, bf.2)) := by
            rw [hred, hbf1]
            dsimp only
            rw [if_pos hth]
          exact (hchar v0 bf.2).mp hstep
        · rw [if_neg hth]
  · intro R embedF orphans videos out hE hneo hrun
    exact (match_by_similarity_spec R sq embedF orphans videos out hE hneo hrun).1

/-- Counterexample for C6 at the claimed boundary: with similarity threshold
`0.0` the only candidate group has mean cosine similarity exactly `0`, which
is `≥` the threshold, so the claim requires assignment — but the code's
fold starts from `best_score = 0.0` with a strict comparison, never selects
a group with a non-positive mean, and leaves the orphan unassigned. -/
theorem similarity_zero_mean_not_assigned :
    meanSimilarity id [(0 : ℚ), 1] [[1, 0]] = .ok 0 ∧
    ((0 : ℚ) ≥ (0 : ℚ)) ∧
    simStep id 0 (videoEmbeddings [c6video]) c6orphan = .ok none := by
  have hcos : compute_cosine_similarity id [(0 : ℚ), 1] [1, 0] = .ok 0 := by
    norm_num [compute_cosine_similarity, dotProduct, sumSquares, listSum]
  have hmap : exceptMapM (compute_cosine_similarity id [(0 : ℚ), 1]) [[1, 0]] =
      .ok [0] := by
    rw [exceptMapM, hcos]
    rfl
  have hmean : meanSimilarity id [(0 : ℚ), 1] [[1, 0]] = .ok 0 := by
    rw [meanSimilarity]
    rw [hmap]
    show Except.ok (listSum [0] / (([0] : List ℚ).length : ℚ)) = _
    norm_num [listSum]
  refine ⟨hmean, le_rfl, ?_⟩
  have hms : exceptMapM (fun p => meanSimilarity id [(0 : ℚ), 1] p.2)
      (videoEmbeddings [c6video]) = .ok [0] := by
    rw [show videoEmbeddings [c6video] = [(c6video, [[1, 0]])] from rfl]
    rw [exceptMapM]
    dsimp only
    rw [hmean]
    rfl
  rw [simStep_reduce id 0 (videoEmbeddings [c6video]) c6orphan [(0 : ℚ), 1]
    [0] rfl rfl hms]
  rfl

/-- Witness for C6: with threshold `1/2`, an orphan whose mean similarity to
the single candidate group is `1` is assigned to that group with that
score. -/
theorem similarity_best_mean_rule_witness :
    simStep id (1 / 2) (videoEmbeddings [c6wvideo]) c6worphan =
      .ok (some (c6wvideo, 1)) := by
  have hcos : compute_cosine_similarity id [(1 : ℚ)] [1] = .ok 1 := by
    norm_num [compute_cosine_similarity, dotProduct, sumSquares, listSum]
  have hmap : exceptMapM (compute_cosine_similarity id [(1 : ℚ)]) [[1]] =
      .ok [1] := by
    rw [exceptMapM, hcos]
    rfl
  have hmean : meanSimilarity id [(1 : ℚ)] [[1]] = .ok 1 := by
    rw [meanSimilarity]
    rw [hmap]
    show Except.ok (listSum [1] / (([1] : List ℚ).length : ℚ)) = _
    norm_num [listSum]
  have hms : exceptMapM (fun p => meanSimilarity id [(1 : ℚ)] p.2)
      (videoEmbeddings [c6wvideo]) = .ok [1] := by
    rw [show videoEmbeddings [c6wvideo] = [(c6wvideo, [[1]])] from rfl]
    rw [exceptMapM]
    dsimp only
    rw [hmean]
    rfl
  refine ((similarity_best_mean_rule id (1 / 2) (videoEmbeddings [c6wvideo])
    c6worphan [1] [1] rfl rfl hms).1 c6wvideo 1).mpr ⟨by norm_num, by norm_num,
    ?_, ?_⟩
  · intro q hq
    have : q = (c6wvideo, (1 : ℚ)) := List.mem_singleton.mp hq
    rw [this]
  · decide

theorem parseRankingResponse_length (e : Option (List ℚ)) (n : ℕ) :
    (parseRankingResponse e n).length = n := by
  rw [parseRankingResponse.eq_def]
  cases e with
  | none => exact List.length_replicate n _
  | some scores =>
    dsimp only
    by_cases h : scores.length = n
    · rw [if_pos h]
      exact h
    · rw [if_neg h]
      exact List.length_replicate n _

theorem pySlice_sublist (k : ℤ) (l : List α) : (pySlice k l).Sublist l := by
  rw [pySlice]
  split
  · exact List.take_sublist _ _
  · exact List.take_sublist _ _

theorem pySlice_length_congr (k : ℤ) (l1 : List α) (l2 : List β)
    (h : l1.length = l2.length) :
    (pySlice k l1).length = (pySlice k l2).length := by
  rw [pySlice, pySlice]
  split
  · simp [List.length_take, h]
  · simp [List.length_take, h]

theorem rerankBatchScores_mem (oracle : ℕ → BatchOutcome) (bs : ℕ)
    (cands : List Comment) (s : ℚ)
    (hs : s ∈ (rerankBatchScores oracle bs cands).flatten) :
    s = 1 / 2 ∨ ∃ i es, oracle i = .resp (some es) ∧ s ∈ es := by
  rcases List.mem_flatten.mp hs with ⟨batchScores, hb, hsb⟩
  rcases List.mem_map.mp hb with ⟨p, _, rfl⟩
  cases ho : oracle p.1 with
  | fail =>
    rw [ho] at hsb
    left
    exact (List.eq_of_mem_replicate hsb)
  | resp e =>
    rw [ho] at hsb
    dsimp only at hsb
    rw [parseRankingResponse.eq_def] at hsb
    cases e with
    | none =>
      left
      exact List.eq_of_mem_replicate hsb
    | some es =>
      dsimp only at hsb
      by_cases hlen : es.length = p.2.length
      · rw [if_pos hlen] at hsb
        right
        exact ⟨p.1, es, ho, hsb⟩
      · rw [if_neg hlen] at hsb
        left
        exact List.eq_of_mem_replicate hsb

theorem llm_rerank_shape (oracle : ℕ → BatchOutcome) (bs : ℕ)
    (candidates : List Comment) (spec : CommentSearchSpec) :
    (llm_rerank oracle bs candidates spec).1.length =
      (llm_rerank oracle bs candidates spec).2.1.length ∧
    (llm_rerank oracle bs candidates spec).2.1.Pairwise (fun a b => a ≥ b) ∧
    ∀ s ∈ (llm_rerank oracle bs candidates spec).2.1,
      s ∈ (rerankBatchScores oracle bs candidates).flatten := by
  rw [llm_rerank]
  by_cases hc : candidates.length = 0
  · rw [if_pos hc]
    refine ⟨rfl, List.Pairwise.nil, ?_⟩
    intro s hs
    simp at hs
  · rw [if_neg hc]
    dsimp only
    refine ⟨by simp, ?_, ?_⟩
    · exact List.pairwise_map.mpr
        (sortDescBy_pairwise (fun p : Comment × ℚ => p.2) _)
    · intro s hs
      rcases List.mem_map.mp hs with ⟨p, hp, rfl⟩
      have hzip := (sortDescBy_perm (fun p : Comment × ℚ => p.2) _).mem_iff.mp hp
      exact (List.of_mem_zip hzip).2

/-- C2 (amended): every `SearchResult` returned by `execute_search` has
`relevance_scores` and `matched_comments` of equal length, with
`matched_comments` ordered by non-increasing score (the parallel score list
is non-increasing); and every score lies in `[0, 1]` PROVIDED every
successfully parsed completion-response score array has entries in `[0, 1]`
— the fallback score `0.5` always does, but the code never clamps parsed
values, so an out-of-range array passes through unchanged (see the
counterexample). -/
theorem search_result_shape (sq : ℚ → ℚ) (bs : ℕ) (oracle : ℕ → BatchOutcome)
    (queryEmb : List ℚ) (video : Video) (spec : CommentSearchSpec)
    (r : SearchResult)
    (hrun : execute_search sq bs oracle queryEmb video spec = .ok r) :
    r.relevance_scores.length = r.matched_comments.length ∧
    r.relevance_scores.Pairwise (fun a b => a ≥ b) ∧
    ((∀ i es, oracle i = .resp (some es) → ∀ s ∈ es, 0 ≤ s ∧ s ≤ 1) →
      ∀ s ∈ r.relevance_scores, 0 ≤ s ∧ s ≤ 1) := by
  rw [execute_search] at hrun
  cases hsf : semantic_filter sq queryEmb video.comments (spec.top_k * 2) with
  | error e =>
    rw [hsf] at hrun
    exact Except.noConfusion hrun
  | ok stage1 =>
    rw [hsf] at hrun
    have hr := Except.ok.inj hrun
    rw [← hr]
    dsimp only
    have hshape :
        (if 0 < (apply_filters stage1.1 spec).length then
          llm_rerank oracle bs (apply_filters stage1.1 spec) spec
        else ([], [], {}, 0)).1.length =
          (if 0 < (apply_filters stage1.1 spec).length then
            llm_rerank oracle bs (apply_filters stage1.1 spec) spec
          else ([], [], {}, 0)).2.1.length ∧
        (if 0 < (apply_filters stage1.1 spec).length then
          llm_rerank oracle bs (apply_filters stage1.1 spec) spec
        else ([], [], {}, 0)).2.1.Pairwise (fun a b => a ≥ b) ∧
        ∀ s ∈ (if 0 < (apply_filters stage1.1 spec).length then
            llm_rerank oracle bs (apply_filters stage1.1 spec) spec
          else ([], [], {}, 0)).2.1,
          s ∈ (rerankBatchScores oracle bs (apply_filters stage1.1 spec)).flatten := by
      by_cases hf : 0 < (apply_filters stage1.1 spec).length
      · rw [if_pos hf]
        exact llm_rerank_shape oracle bs (apply_filters stage1.1 spec) spec
      · rw [if_neg hf]
        exact ⟨rfl, List.Pairwise.nil, fun s hs => absurd hs (by simp)⟩
    refine ⟨?_, ?_, ?_⟩
    · exact pySlice_length_congr spec.top_k _ _ hshape.1.symm
    · exact List.Pairwise.sublist (pySlice_sublist spec.top_k _) hshape.2.1
    · intro hrange s hs
      have hs2 := (pySlice_sublist spec.top_k _).subset hs
      have hmem := hshape.2.2 s hs2
      rcases rerankBatchScores_mem oracle bs _ s hmem with h12 | ⟨i, es, hoi, hses⟩
      · rw [h12]
        norm_num
      · exact hrange i es hoi s hses

/-- Witness for C2 on a concrete search over a video without comments and a
failing completion oracle. -/
theorem search_result_shape_witness :
    c2res.relevance_scores.length = c2res.matched_comments.length ∧
    c2res.relevance_scores.Pairwise (fun a b => a ≥ b) ∧
    ((∀ i es, c2oracleFail i = .resp (some es) → ∀ s ∈ es, 0 ≤ s ∧ s ≤ 1) →
      ∀ s ∈ c2res.relevance_scores, 0 ≤ s ∧ s ≤ 1) :=
  search_result_shape id 20 c2oracleFail [(1 : ℚ)] c2video c2spec c2res rfl

/-- Counterexample for C2 as stated: a completion response whose extracted
score array is `[5.0]` for a one-comment batch parses successfully (the
count matches) and is returned unclamped, so the result carries the
relevance score `5`, outside `[0, 1]`. -/
theorem rerank_score_above_one :
    execute_search id 20 c2xoracle [(1 : ℚ)] c2xvideo c2xspec =
      .ok { spec := c2xspec, matched_comments := [c2xcomment],
            relevance_scores := [5], extracted_insights := {},
            api_calls_made := 2 } ∧ ¬ ((5 : ℚ) ≤ 1) := by
  have hcos : compute_cosine_similarity id [(1 : ℚ)] [1] = .ok 1 := by
    norm_num [compute_cosine_similarity, dotProduct, sumSquares, listSum]
  have hmapped : exceptMapM (fun ce =>
      (compute_cosine_similarity id [(1 : ℚ)] ce.2).map (fun s => (ce.1, s)))
      [(c2xcomment, [(1 : ℚ)])] = .ok [(c2xcomment, 1)] := by
    rw [exceptMapM]
    dsimp only
    rw [hcos]
    rfl
  have hsf : semantic_filter id [(1 : ℚ)] c2xvideo.comments (c2xspec.top_k * 2) =
      .ok ([c2xcomment], [1]) := by
    rw [semantic_filter]
    rw [show c2xvideo.comments.filterMap
        (fun c => c.embedding.map (fun e => (c, e))) =
      [(c2xcomment, [(1 : ℚ)])] from rfl]
    rw [hmapped]
    rfl
  constructor
  · rw [execute_search, hsf]
    rfl
  · decide

theorem enumFrom_map_getElem (f : ℕ × List Comment → List ℚ) :
    ∀ (l : List (List Comment)) (n j : ℕ),
      ((l.enumFrom n).map f)[j]? = (l[j]?).map (fun b => f (n + j, b)) := by
  intro l
  induction l with
  | nil =>
    intro n j
    simp
  | cons b bs ih =>
    intro n j
    cases j with
    | zero =>
      simp [List.enumFrom]
    | succ j2 =>
      rw [List.enumFrom, List.map_cons]
      rw [List.getElem?_cons_succ, List.getElem?_cons_succ]
      rw [ih (n + 1) j2]
      have harith : n + 1 + j2 = n + (j2 + 1) := by omega
      rw [harith]

/-- C4: during stage-2 rerank, every batch whose completion call raises, or
whose response has no extractable score array, or whose extracted array's
count differs from the batch size, contributes exactly the neutral score
`0.5` for every one of its items; and the success of the surrounding search
does not depend on the completion oracle at all — a rerank failure never
aborts the search. -/
theorem failed_rerank_batch_neutral_and_search_completes :
    (∀ (oracle : ℕ → BatchOutcome) (bs : ℕ) (candidates : List Comment)
        (j : ℕ) (b : List Comment),
      (chunks bs candidates)[j]? = some b →
      (oracle j = .fail ∨ oracle j = .resp none ∨
        ∃ es, oracle j = .resp (some es) ∧ es.length ≠ b.length) →
      (rerankBatchScores oracle bs candidates)[j]? =
        some (List.replicate b.length (1 / 2))) ∧
    (∀ (sq : ℚ → ℚ) (bs : ℕ) (O1 O2 : ℕ → BatchOutcome) (queryEmb : List ℚ)
        (video : Video) (spec : CommentSearchSpec),
      (execute_search sq bs O1 queryEmb video spec).toOption.isSome =
        (execute_search sq bs O2 queryEmb video spec).toOption.isSome) := by
  constructor
  · intro oracle bs candidates j b hb hfail
    rw [rerankBatchScores]
    rw [show (chunks bs candidates).enum = (chunks bs candidates).enumFrom 0
      from rfl]
    rw [enumFrom_map_getElem]
    rw [hb]
    dsimp only [Option.map]
    simp only [Nat.zero_add]
    rcases hfail with hf | hf | ⟨es, hf, hlen⟩
    · rw [hf]
    · rw [hf]
      rfl
    · rw [hf]
      dsimp only
      rw [parseRankingResponse.eq_def]
      dsimp only
      rw [if_neg hlen]
  · intro sq bs O1 O2 queryEmb video spec
    rw [execute_search, execute_search]
    cases hsf : semantic_filter sq queryEmb video.comments (spec.top_k * 2) with
    | error e => rfl
    | ok s1 => rfl

/-- Witness for C4: a one-comment batch whose completion call raises gets
the neutral score list `[0.5]`, and the search's success is unchanged
between a failing oracle and a returning one. -/
theorem failed_rerank_batch_neutral_witness :
    (rerankBatchScores c2oracleFail 20 [c2xcomment])[0]? =
      some (List.replicate ([c2xcomment] : List Comment).length (1 / 2)) ∧
    (execute_search id 20 c2oracleFail [(1 : ℚ)] c2xvideo c2xspec).toOption.isSome =
      (execute_search id 20 c2xoracle [(1 : ℚ)] c2xvideo c2xspec).toOption.isSome :=
  ⟨failed_rerank_batch_neutral_and_search_completes.1 c2oracleFail 20
      [c2xcomment] 0 [c2xcomment] rfl (Or.inl rfl),
   failed_rerank_batch_neutral_and_search_completes.2 id 20 c2oracleFail
      c2xoracle [(1 : ℚ)] c2xvideo c2xspec⟩
